import Mathlib

/-!
Shallow embedding of the paper-trading engine of marketforge-pro:
`src/backend/services/paper_trading_service.py` together with the data
model of `src/backend/models/paper_trading.py`.

Modelling conventions:
* monetary amounts, prices and quantities are rationals (`ℚ`);
* identifiers are naturals drawn from a counter (the service uses
  `uuid.uuid4()`, whose only relevant property is global uniqueness);
* timestamps (`datetime.utcnow()`) are naturals drawn from a logical
  clock that advances on every mutating operation;
* the dictionaries `portfolios`, `orders`, `positions`, `trades` of
  `PaperTradingService` become lists kept in insertion order (Python
  dicts iterate in insertion order, and the per-portfolio index lists
  `portfolio_orders` / `portfolio_positions` / `portfolio_trades`
  coincide with filtering those lists by `portfolio_id`);
* a Python function that raises (`KeyError`, `ValueError`) is modelled
  with `Except`, and an internal helper that is only ever called with
  keys that exist returns the state unchanged on a missing key.
-/

namespace PaperTrading

/-- `OrderSide` of `models/paper_trading.py`. -/
inductive OrderSide where
  | buy
  | sell
deriving DecidableEq, Repr

/-- `OrderType` of `models/paper_trading.py`. -/
inductive OrderType where
  | market
  | limit
  | stop_loss
  | take_profit
deriving DecidableEq, Repr

/-- `OrderStatus` of `models/paper_trading.py`.  The source declares a
fifth member, PARTIALLY-FILLED, which no code path ever assigns (fills
are all-or-nothing); it is omitted here. -/
inductive OrderStatus where
  | pending
  | filled
  | cancelled
  | rejected
deriving DecidableEq, Repr

/-- `PositionSide` of `models/paper_trading.py`. -/
inductive PositionSide where
  | long
  | short
deriving DecidableEq, Repr

/-- `PortfolioData` of `models/paper_trading.py` (the `name` and
`description` strings play no role in any behaviour and are omitted). -/
structure PortfolioData where
  id : Nat
  initial_balance : ℚ
  cash_balance : ℚ
  created_at : Nat
  updated_at : Nat
deriving DecidableEq, Repr

/-- `OrderData` of `models/paper_trading.py`. -/
structure OrderData where
  id : Nat
  portfolio_id : Nat
  symbol : String
  side : OrderSide
  order_type : OrderType
  quantity : ℚ
  filled_quantity : ℚ := 0
  price : Option ℚ := none
  stop_price : Option ℚ := none
  average_fill_price : Option ℚ := none
  status : OrderStatus := OrderStatus.pending
  created_at : Nat
  filled_at : Option Nat := none
  cancelled_at : Option Nat := none
deriving DecidableEq, Repr

/-- `PositionData` of `models/paper_trading.py`. -/
structure PositionData where
  id : Nat
  portfolio_id : Nat
  symbol : String
  side : PositionSide
  quantity : ℚ
  total_cost : ℚ
  opened_at : Nat
deriving DecidableEq, Repr

/-- `PositionData.average_entry_price`: `total_cost / quantity` if the
quantity is positive, else `0`. -/
def PositionData.average_entry_price (p : PositionData) : ℚ :=
  if 0 < p.quantity then p.total_cost / p.quantity else 0

/-- `TradeData` of `models/paper_trading.py`. -/
structure TradeData where
  id : Nat
  portfolio_id : Nat
  order_id : Nat
  symbol : String
  side : OrderSide
  quantity : ℚ
  price : ℚ
  fee : ℚ
  executed_at : Nat
deriving DecidableEq, Repr

/-- `TradeData.total`: `(quantity * price) + fee`, for either side. -/
def TradeData.total (t : TradeData) : ℚ :=
  t.quantity * t.price + t.fee

/-- `CreateOrderRequest` of `models/paper_trading.py`.  Pydantic
validates `quantity > 0` and, when present, `price > 0` and
`stop_price > 0`; see `ValidOrderRequest`. -/
structure CreateOrderRequest where
  symbol : String
  side : OrderSide
  order_type : OrderType
  quantity : ℚ
  price : Option ℚ := none
  stop_price : Option ℚ := none
deriving DecidableEq, Repr

/-- The field validators pydantic attaches to `CreateOrderRequest`
(`gt=0` on `quantity`, `price`, `stop_price`). -/
def ValidOrderRequest (r : CreateOrderRequest) : Prop :=
  0 < r.quantity ∧ (∀ p ∈ r.price, 0 < p) ∧ (∀ p ∈ r.stop_price, 0 < p)

/-- `CreatePortfolioRequest` of `models/paper_trading.py` (`name` and
`description` omitted; pydantic validates `initial_balance > 0`). -/
structure CreatePortfolioRequest where
  initial_balance : ℚ := 100000
deriving DecidableEq, Repr

/-- The in-memory state of one `PaperTradingService` instance. -/
structure ServiceState where
  portfolios : List PortfolioData
  orders : List OrderData
  positions : List PositionData
  trades : List TradeData
  nextId : Nat
  clock : Nat
deriving DecidableEq, Repr

/-- The state of a freshly constructed service. -/
def initState : ServiceState :=
  { portfolios := [], orders := [], positions := [], trades := [],
    nextId := 0, clock := 0 }

/-- `self.fee_rate = 0.001` (0.1% per trade). -/
def fee_rate : ℚ := 1 / 1000

/-- Python truthiness of an `Optional[float]`: `None` and `0.0` are
falsy.  Used wherever the source writes `and order.price` /
`and order.stop_price`. -/
def otruthy : Option ℚ → Bool
  | none => false
  | some p => p != 0

/-- Replace the first element satisfying `p` by its image under `f`.
Models an assignment to one key of a Python dict (keys are unique, so
at most one stored record matches an id). -/
def updateFirst (p : α → Bool) (f : α → α) : List α → List α
  | [] => []
  | x :: xs => if p x then f x :: xs else x :: updateFirst p f xs

/-- `self.portfolios[pid]` lookup. -/
def findPortfolio (s : ServiceState) (pid : Nat) : Option PortfolioData :=
  s.portfolios.find? (fun p => p.id == pid)

/-- `self.orders[oid]` lookup. -/
def findOrder (s : ServiceState) (oid : Nat) : Option OrderData :=
  s.orders.find? (fun o => o.id == oid)

/-- In-place mutation of the portfolio stored under `pid`. -/
def updatePortfolio (s : ServiceState) (pid : Nat)
    (f : PortfolioData → PortfolioData) : ServiceState :=
  { s with portfolios := updateFirst (fun p => p.id == pid) f s.portfolios }

/-- In-place mutation of the order stored under `oid`. -/
def updateOrderData (s : ServiceState) (oid : Nat)
    (f : OrderData → OrderData) : ServiceState :=
  { s with orders := updateFirst (fun o => o.id == oid) f s.orders }

/-- `PaperTradingService._find_position`: the first position of the
portfolio whose symbol matches (the per-portfolio index list preserves
insertion order, so this is a first-match scan). -/
def _find_position (s : ServiceState) (portfolio_id : Nat) (symbol : String) :
    Option PositionData :=
  s.positions.find? (fun p => p.portfolio_id == portfolio_id && p.symbol == symbol)

/-- `PaperTradingService._update_position`: add to an existing position
of the symbol, or create a new one. -/
def _update_position (portfolio_id : Nat) (symbol : String)
    (side : PositionSide) (quantity : ℚ) (cost : ℚ)
    (s : ServiceState) : ServiceState :=
  match _find_position s portfolio_id symbol with
  | some position =>
      { s with positions :=
          (updateFirst (fun p => p.id == position.id)
            (fun p => { p with quantity := p.quantity + quantity,
                               total_cost := p.total_cost + cost })
            s.positions) }
  | none =>
      { s with
        positions := s.positions ++
          [{ id := s.nextId, portfolio_id := portfolio_id, symbol := symbol,
             side := side, quantity := quantity, total_cost := cost,
             opened_at := s.clock }],
        nextId := s.nextId + 1 }

/-- `PaperTradingService._reduce_position`: subtract the quantity and a
proportional share of the cost basis, then delete the position if the
remaining quantity is `≤ 0.0001`. -/
def _reduce_position (portfolio_id : Nat) (symbol : String) (quantity : ℚ)
    (s : ServiceState) : ServiceState :=
  match _find_position s portfolio_id symbol with
  | none => s
  | some position =>
      let cost_per_unit := position.total_cost / position.quantity
      let newQuantity := position.quantity - quantity
      let newCost := position.total_cost - cost_per_unit * quantity
      if newQuantity ≤ 1 / 10000 then
        { s with positions := s.positions.eraseP (fun p => p.id == position.id) }
      else
        { s with positions :=
            (updateFirst (fun p => p.id == position.id)
              (fun p => { p with quantity := newQuantity, total_cost := newCost })
              s.positions) }

/-- The tail of `PaperTradingService._execute_order` (after the side
branch succeeded): mark the order FILLED, record the trade, touch the
portfolio's `updated_at`. -/
def finishFill (order_id : Nat) (execution_price fee : ℚ)
    (order : OrderData) (s : ServiceState) : ServiceState :=
  let s1 := updateOrderData s order_id (fun o =>
    { o with status := OrderStatus.filled,
             filled_quantity := o.quantity,
             average_fill_price := some execution_price,
             filled_at := some s.clock })
  let trade : TradeData :=
    { id := s1.nextId, portfolio_id := order.portfolio_id,
      order_id := order_id, symbol := order.symbol, side := order.side,
      quantity := order.quantity, price := execution_price, fee := fee,
      executed_at := s1.clock }
  let s2 := { s1 with trades := s1.trades ++ [trade], nextId := s1.nextId + 1 }
  let s3 := updatePortfolio s2 order.portfolio_id
    (fun p => { p with updated_at := s2.clock })
  { s3 with clock := s3.clock + 1 }

/-- `PaperTradingService._execute_order`: fee check, balance / position
check, ledger mutation, trade record. -/
def _execute_order (order_id : Nat) (execution_price : ℚ)
    (s : ServiceState) : ServiceState :=
  match findOrder s order_id with
  | none => s
  | some order =>
    match findPortfolio s order.portfolio_id with
    | none => s
    | some portfolio =>
      let fee := execution_price * order.quantity * fee_rate
      let total_cost := execution_price * order.quantity + fee
      match order.side with
      | OrderSide.buy =>
        if portfolio.cash_balance < total_cost then
          updateOrderData s order_id (fun o => { o with status := OrderStatus.rejected })
        else
          let s1 := updatePortfolio s order.portfolio_id
            (fun p => { p with cash_balance := p.cash_balance - total_cost })
          let s2 := _update_position order.portfolio_id order.symbol
            PositionSide.long order.quantity (execution_price * order.quantity) s1
          finishFill order_id execution_price fee order s2
      | OrderSide.sell =>
        match _find_position s order.portfolio_id order.symbol with
        | none =>
          updateOrderData s order_id (fun o => { o with status := OrderStatus.rejected })
        | some position =>
          if position.quantity < order.quantity then
            updateOrderData s order_id (fun o => { o with status := OrderStatus.rejected })
          else
            let revenue := execution_price * order.quantity - fee
            let s1 := updatePortfolio s order.portfolio_id
              (fun p => { p with cash_balance := p.cash_balance + revenue })
            let s2 := _reduce_position order.portfolio_id order.symbol
              order.quantity s1
            finishFill order_id execution_price fee order s2

/-- `PaperTradingService.create_portfolio`.  Returns the new state and
the fresh portfolio id. -/
def create_portfolio (request : CreatePortfolioRequest) (s : ServiceState) :
    ServiceState × Nat :=
  let portfolio_id := s.nextId
  let pf : PortfolioData :=
    { id := portfolio_id, initial_balance := request.initial_balance,
      cash_balance := request.initial_balance,
      created_at := s.clock, updated_at := s.clock }
  ({ s with portfolios := s.portfolios ++ [pf],
            nextId := s.nextId + 1, clock := s.clock + 1 },
   portfolio_id)

/-- `PaperTradingService.create_order`: store the order, then execute a
market order immediately at the current price, or a limit order
immediately at the limit price if the current price already satisfies
the limit.  Raises (`Except.error`) when the portfolio is unknown. -/
def create_order (portfolio_id : Nat) (request : CreateOrderRequest)
    (current_price : ℚ) (s : ServiceState) :
    ServiceState × Except String Nat :=
  if (findPortfolio s portfolio_id).isNone then
    (s, Except.error "Portfolio not found")
  else
    let order_id := s.nextId
    let order : OrderData :=
      { id := order_id, portfolio_id := portfolio_id,
        symbol := request.symbol, side := request.side,
        order_type := request.order_type, quantity := request.quantity,
        price := request.price, stop_price := request.stop_price,
        created_at := s.clock }
    let s1 : ServiceState := { s with orders := s.orders ++ [order], nextId := s.nextId + 1 }
    let s2 :=
      if request.order_type = OrderType.market then
        _execute_order order_id current_price s1
      else if request.order_type = OrderType.limit ∧ otruthy request.price then
        match request.price with
        | some p =>
          if (request.side = OrderSide.buy ∧ current_price ≤ p) ∨
             (request.side = OrderSide.sell ∧ p ≤ current_price) then
            _execute_order order_id p s1
          else s1
        | none => s1
      else s1
    ({ s2 with clock := s2.clock + 1 }, Except.ok order_id)

/-- `PaperTradingService.cancel_order`: `none` when unknown, an error
when not PENDING, else set CANCELLED and `cancelled_at`. -/
def cancel_order (order_id : Nat) (s : ServiceState) :
    ServiceState × Except String (Option Nat) :=
  match findOrder s order_id with
  | none => (s, Except.ok none)
  | some order =>
    if order.status ≠ OrderStatus.pending then
      (s, Except.error "Cannot cancel order")
    else
      let s1 := updateOrderData s order_id (fun o =>
        { o with status := OrderStatus.cancelled, cancelled_at := some s.clock })
      ({ s1 with clock := s1.clock + 1 }, Except.ok (some order_id))

/-- `prices.get(symbol)` on the sweep's snapshot dict. -/
def lookupPrice (prices : List (String × ℚ)) (symbol : String) : Option ℚ :=
  (prices.find? (fun pr => pr.1 == symbol)).map (fun pr => pr.2)

/-- The trigger decision of `PaperTradingService.update_market_prices`
for one pending order at one current price: whether `should_execute`
ends up true, and the `execution_price` used.  Mirrors the
`if/elif` chain over LIMIT / STOP-LOSS / TAKE-PROFIT, including the
truthiness tests `and order.price` / `and order.stop_price`. -/
def triggerCheck (order : OrderData) (current_price : ℚ) : Bool × ℚ :=
  if order.order_type = OrderType.limit ∧ otruthy order.price then
    match order.price with
    | some p =>
      if (order.side = OrderSide.buy ∧ current_price ≤ p) ∨
         (order.side = OrderSide.sell ∧ p ≤ current_price) then
        (true, p)
      else (false, current_price)
    | none => (false, current_price)
  else if order.order_type = OrderType.stop_loss ∧ otruthy order.stop_price then
    match order.stop_price with
    | some sp =>
      if current_price ≤ sp then (true, current_price) else (false, current_price)
    | none => (false, current_price)
  else if order.order_type = OrderType.take_profit ∧ otruthy order.stop_price then
    match order.stop_price with
    | some sp =>
      if sp ≤ current_price then (true, current_price) else (false, current_price)
    | none => (false, current_price)
  else (false, current_price)

/-- One iteration of the sweep loop of `update_market_prices`, driven
by the order list as it was when the loop started (each order's fields
are untouched until its own iteration, because ids are unique and an
execution only mutates the executed order). -/
def sweepStep (prices : List (String × ℚ))
    (acc : ServiceState × List OrderData) (o : OrderData) :
    ServiceState × List OrderData :=
  if o.status ≠ OrderStatus.pending then acc
  else
    match lookupPrice prices o.symbol with
    | none => acc
    | some current_price =>
      let tc := triggerCheck o current_price
      if tc.1 then
        let s1 := _execute_order o.id tc.2 acc.1
        match findOrder s1 o.id with
        | some executed => (s1, acc.2 ++ [executed])
        | none => (s1, acc.2)
      else acc

/-- `PaperTradingService.update_market_prices`: sweep every stored
order, executing those whose trigger fires, and return the new state
together with the `executed_orders` list the method returns. -/
def update_market_prices (prices : List (String × ℚ)) (s : ServiceState) :
    ServiceState × List OrderData :=
  s.orders.foldl (sweepStep prices) (s, [])

/-- The body of the win/loss counting loop of
`PaperTradingService._calculate_portfolio_stats`, for one SELL trade:
average the prices of the same-symbol BUY trades that executed strictly
earlier; if any exist, count a winner when the sell price strictly
exceeds that average, else a loser. -/
def winLossStep (buys : List TradeData) (wl : Nat × Nat) (sell : TradeData) :
    Nat × Nat :=
  let matching_buys := buys.filter (fun b =>
    b.symbol = sell.symbol ∧ b.executed_at < sell.executed_at)
  if matching_buys.length ≠ 0 then
    let avg_buy_price := (matching_buys.map (fun b => b.price)).sum / matching_buys.length
    if avg_buy_price < sell.price then (wl.1 + 1, wl.2) else (wl.1, wl.2 + 1)
  else wl

/-- The win/loss counting loop of `_calculate_portfolio_stats`. -/
def winLoss (trades : List TradeData) : Nat × Nat :=
  let buys := trades.filter (fun t => t.side = OrderSide.buy)
  let sells := trades.filter (fun t => t.side = OrderSide.sell)
  sells.foldl (winLossStep buys) (0, 0)

/-- The `win_rate` formula of `_calculate_portfolio_stats`:
`winners / (winners + losers) * 100`, or `0` when nothing was
classified. -/
def winRateOf (trades : List TradeData) : ℚ :=
  let wl := winLoss trades
  if 0 < wl.1 + wl.2 then (wl.1 : ℚ) / ((wl.1 : ℚ) + (wl.2 : ℚ)) * 100 else 0

/-- One client-visible operation on the service (the four operations
the claims range over). -/
inductive Op where
  | mkPortfolio (request : CreatePortfolioRequest)
  | mkOrder (portfolio_id : Nat) (request : CreateOrderRequest) (current_price : ℚ)
  | cancel (order_id : Nat)
  | sweep (prices : List (String × ℚ))
deriving DecidableEq, Repr

/-- Apply one operation, discarding the response. -/
def applyOp (s : ServiceState) : Op → ServiceState
  | Op.mkPortfolio request => (create_portfolio request s).1
  | Op.mkOrder pid request current_price => (create_order pid request current_price s).1
  | Op.cancel oid => (cancel_order oid s).1
  | Op.sweep prices => (update_market_prices prices s).1

/-- Apply a sequence of operations from left to right. -/
def applyOps (s : ServiceState) (ops : List Op) : ServiceState :=
  ops.foldl applyOp s

/-- Validity of one operation's inputs: the pydantic `gt=0` validators
on requests, and non-negativity of the market prices handed in by the
price source. -/
def Op.Valid : Op → Prop
  | Op.mkPortfolio request => 0 < request.initial_balance
  | Op.mkOrder _ request current_price => ValidOrderRequest request ∧ 0 ≤ current_price
  | Op.cancel _ => True
  | Op.sweep prices => ∀ pr ∈ prices, 0 ≤ pr.2

/-- A stored order as it is guaranteed to look after validation:
positive quantity and, when present, positive limit price. -/
def GoodOrder (o : OrderData) : Prop :=
  0 < o.quantity ∧ (∀ p ∈ o.price, 0 < p)

/-- The ledger invariants maintained by every reachable state:
non-negative cash, validated stored orders, positive position
quantities. -/
def GoodState (s : ServiceState) : Prop :=
  (∀ pf ∈ s.portfolios, 0 ≤ pf.cash_balance) ∧
  (∀ o ∈ s.orders, GoodOrder o) ∧
  (∀ pos ∈ s.positions, 0 < pos.quantity)

/-- Whether a sweep at the given snapshot would pick up this order:
it is PENDING, its symbol is priced, and its trigger condition holds. -/
def sweepTriggers (prices : List (String × ℚ)) (o : OrderData) : Bool :=
  o.status == OrderStatus.pending &&
    match lookupPrice prices o.symbol with
    | none => false
    | some current_price => (triggerCheck o current_price).1

/-- The spec's description of the sweep's return value: the orders
(of the scanned list) whose status changed during the call, each in its
post-sweep version, in scan order. -/
def statusChangedOrders (scanned : List OrderData) (after : ServiceState) :
    List OrderData :=
  scanned.filterMap (fun o =>
    match findOrder after o.id with
    | some o' => if o'.status ≠ o.status then some o' else none
    | none => none)

/-- The spec's win/loss classification of one SELL trade against the
BUY trades: `none` when no same-symbol BUY executed strictly earlier,
else `some true` (win) exactly when the sell price strictly exceeds the
average of those buy prices. -/
def classifySell (buys : List TradeData) (sell : TradeData) : Option Bool :=
  let matching_buys := buys.filter (fun b =>
    b.symbol = sell.symbol ∧ b.executed_at < sell.executed_at)
  if matching_buys.length ≠ 0 then
    some ((matching_buys.map (fun b => b.price)).sum / matching_buys.length < sell.price)
  else none

/-- The spec's winner count: sells classified `some true`. -/
def specWinners (trades : List TradeData) : Nat :=
  (trades.filter (fun t => t.side = OrderSide.sell)).countP
    (fun sell => classifySell (trades.filter (fun t => t.side = OrderSide.buy)) sell
      == some true)

/-- The spec's loser count: sells classified `some false`. -/
def specLosers (trades : List TradeData) : Nat :=
  (trades.filter (fun t => t.side = OrderSide.sell)).countP
    (fun sell => classifySell (trades.filter (fun t => t.side = OrderSide.buy)) sell
      == some false)

/-- Spec scenario A: a fresh portfolio of 100000 after a market buy of
0.5 units at price 50000. -/
def scenarioA : ServiceState := applyOps initState
  [Op.mkPortfolio ⟨100000⟩,
   Op.mkOrder 0 ⟨"BTC/USD", OrderSide.buy, OrderType.market, 1/2, none, none⟩ 50000]

/-- Spec scenario B: scenario A continued by a market sell of 0.5 units
at price 52000. -/
def scenarioB : ServiceState := applyOps scenarioA
  [Op.mkOrder 0 ⟨"BTC/USD", OrderSide.sell, OrderType.market, 1/2, none, none⟩ 52000]

/-- A tiny-quantity market buy: a fresh portfolio of 100000 buys
0.00005 units at price 1. -/
def scenarioTinyBuy : ServiceState := applyOps initState
  [Op.mkPortfolio ⟨100000⟩,
   Op.mkOrder 0 ⟨"BTC/USD", OrderSide.buy, OrderType.market, 1/20000, none, none⟩ 1]


/-- A pending limit order used by concrete witnesses. -/
def wPending : OrderData :=
  { id := 1, portfolio_id := 0, symbol := "BTC/USD", side := OrderSide.buy,
    order_type := OrderType.limit, quantity := 1, price := some 10,
    created_at := 0 }

/-- A filled order used by concrete witnesses. -/
def wFilled : OrderData :=
  { id := 2, portfolio_id := 0, symbol := "BTC/USD", side := OrderSide.buy,
    order_type := OrderType.market, quantity := 1, filled_quantity := 1,
    average_fill_price := some 10, status := OrderStatus.filled,
    created_at := 0, filled_at := some 0 }

/-- A service state holding one pending and one filled order. -/
def wCancelState : ServiceState :=
  { portfolios := [{ id := 0, initial_balance := 100, cash_balance := 100,
                     created_at := 0, updated_at := 0 }],
    orders := [wPending, wFilled], positions := [], trades := [],
    nextId := 3, clock := 5 }

/-- A position of quantity 1 used by concrete witnesses. -/
def wPosition : PositionData :=
  { id := 7, portfolio_id := 0, symbol := "BTC/USD", side := PositionSide.long,
    quantity := 1, total_cost := 2, opened_at := 0 }

/-- A service state holding only `wPosition`. -/
def wReduceState : ServiceState :=
  { portfolios := [], orders := [], positions := [wPosition], trades := [],
    nextId := 8, clock := 9 }

/-- A pending market buy too large for its portfolio's cash. -/
def wBigBuy : OrderData :=
  { id := 1, portfolio_id := 0, symbol := "BTC/USD", side := OrderSide.buy,
    order_type := OrderType.market, quantity := 1, created_at := 0 }

/-- A pending market sell with no position behind it. -/
def wBareSell : OrderData :=
  { id := 2, portfolio_id := 0, symbol := "BTC/USD", side := OrderSide.sell,
    order_type := OrderType.market, quantity := 1, created_at := 0 }

/-- A service state with 100 of cash, no positions, and the two orders
above still pending. -/
def wRejectState : ServiceState :=
  { portfolios := [{ id := 0, initial_balance := 100, cash_balance := 100,
                     created_at := 0, updated_at := 0 }],
    orders := [wBigBuy, wBareSell], positions := [], trades := [],
    nextId := 3, clock := 5 }


/-- A pending limit order carrying no limit price. -/
def wNoPrice : OrderData :=
  { id := 1, portfolio_id := 0, symbol := "BTC/USD", side := OrderSide.buy,
    order_type := OrderType.limit, quantity := 1, price := none,
    created_at := 0 }

/-- A service state holding one portfolio and the priceless limit
order. -/
def wNoPriceState : ServiceState :=
  { portfolios := [{ id := 0, initial_balance := 100, cash_balance := 100,
                     created_at := 0, updated_at := 0 }],
    orders := [wNoPrice], positions := [], trades := [],
    nextId := 2, clock := 0 }


/-- The order record `create_order` stores (before any immediate
execution attempt). -/
def newOrderRecord (pid : Nat) (req : CreateOrderRequest) (s : ServiceState) : OrderData :=
  { id := s.nextId, portfolio_id := pid, symbol := req.symbol, side := req.side,
    order_type := req.order_type, quantity := req.quantity, price := req.price,
    stop_price := req.stop_price, created_at := s.clock }

end PaperTrading

namespace PaperTrading

/-! ### Generic lemmas about `updateFirst` and keyed `find?` -/

theorem updateFirst_cons (p : α → Bool) (f : α → α) (x : α) (xs : List α) :
    updateFirst p f (x :: xs) = if p x then f x :: xs else x :: updateFirst p f xs := rfl

theorem length_updateFirst (p : α → Bool) (f : α → α) (l : List α) :
    (updateFirst p f l).length = l.length := by
  induction l with
  | nil => rfl
  | cons x xs ih => rw [updateFirst_cons]; split <;> simp [ih]

theorem mem_updateFirst {p : α → Bool} {f : α → α} {l : List α} {y : α}
    (h : y ∈ updateFirst p f l) :
    y ∈ l ∨ ∃ x, l.find? p = some x ∧ y = f x := by
  induction l with
  | nil => simp [updateFirst] at h
  | cons x xs ih =>
    rw [updateFirst_cons] at h
    by_cases hp : p x
    · rw [if_pos hp] at h
      rcases List.mem_cons.1 h with h | h
      · exact Or.inr ⟨x, List.find?_cons_of_pos _ hp, h⟩
      · exact Or.inl (List.mem_cons_of_mem _ h)
    · rw [if_neg hp] at h
      rcases List.mem_cons.1 h with h | h
      · exact Or.inl (h ▸ List.mem_cons_self _ _)
      · rcases ih h with h | ⟨z, hz, hyz⟩
        · exact Or.inl (List.mem_cons_of_mem _ h)
        · exact Or.inr ⟨z, by rw [List.find?_cons_of_neg _ hp]; exact hz, hyz⟩

theorem find?_updateFirst_self {p : α → Bool} {f : α → α} {l : List α} {x : α}
    (h : l.find? p = some x) (hfx : p (f x) = true) :
    (updateFirst p f l).find? p = some (f x) := by
  induction l with
  | nil => simp at h
  | cons a l ih =>
    by_cases hp : p a
    · rw [List.find?_cons_of_pos _ hp] at h
      injection h with h; subst h
      rw [updateFirst_cons, if_pos hp, List.find?_cons_of_pos _ hfx]
    · rw [List.find?_cons_of_neg _ hp] at h
      rw [updateFirst_cons, if_neg hp, List.find?_cons_of_neg _ hp]
      exact ih h

theorem find?_updateFirst_of_none {p q : α → Bool} {f : α → α} {l : List α}
    (h1 : ∀ x, p x = true → q x = false)
    (h2 : ∀ x, p x = true → q (f x) = false) :
    (updateFirst p f l).find? q = l.find? q := by
  induction l with
  | nil => rfl
  | cons a l ih =>
    by_cases hp : p a
    · rw [updateFirst_cons, if_pos hp, List.find?_cons_of_neg _ (by simp [h2 a hp]),
          List.find?_cons_of_neg _ (by simp [h1 a hp])]
    · rw [updateFirst_cons, if_neg hp]
      by_cases hq : q a
      · rw [List.find?_cons_of_pos _ hq, List.find?_cons_of_pos _ hq]
      · rw [List.find?_cons_of_neg _ hq, List.find?_cons_of_neg _ hq, ih]

theorem map_updateFirst_key {p : α → Bool} {f : α → α} {key : α → β} {l : List α}
    (hf : ∀ x, key (f x) = key x) :
    (updateFirst p f l).map key = l.map key := by
  induction l with
  | nil => rfl
  | cons a l ih => rw [updateFirst_cons]; split <;> simp [hf, ih]

theorem find?_key_of_nodup {key : α → Nat} {l : List α}
    (hnd : (l.map key).Nodup) {x : α} (hx : x ∈ l) :
    l.find? (fun y => key y == key x) = some x := by
  induction l with
  | nil => cases hx
  | cons a l ih =>
    simp only [List.map_cons, List.nodup_cons] at hnd
    rcases List.mem_cons.1 hx with rfl | hx
    · exact List.find?_cons_of_pos _ (by simp)
    · have hne : ¬ (key a == key x) = true := by
        simp only [beq_iff_eq]
        intro he
        exact hnd.1 (he ▸ List.mem_map_of_mem key hx)
      exact (List.find?_cons_of_neg l hne).trans (ih hnd.2 hx)

end PaperTrading

namespace PaperTrading

/-! ### Effect of the primitive transformers on each store -/

theorem updatePortfolio_orders (s : ServiceState) (pid : Nat) (f) :
    (updatePortfolio s pid f).orders = s.orders := rfl

theorem updateOrderData_portfolios (s : ServiceState) (oid : Nat) (f) :
    (updateOrderData s oid f).portfolios = s.portfolios := rfl

theorem updateOrderData_positions (s : ServiceState) (oid : Nat) (f) :
    (updateOrderData s oid f).positions = s.positions := rfl

theorem updateOrderData_trades (s : ServiceState) (oid : Nat) (f) :
    (updateOrderData s oid f).trades = s.trades := rfl

theorem update_position_portfolios (pid : Nat) (sym : String) (side) (q c : ℚ)
    (s : ServiceState) : (_update_position pid sym side q c s).portfolios = s.portfolios := by
  unfold _update_position
  cases _find_position s pid sym <;> rfl

theorem update_position_orders (pid : Nat) (sym : String) (side) (q c : ℚ)
    (s : ServiceState) : (_update_position pid sym side q c s).orders = s.orders := by
  unfold _update_position
  cases _find_position s pid sym <;> rfl

theorem update_position_trades (pid : Nat) (sym : String) (side) (q c : ℚ)
    (s : ServiceState) : (_update_position pid sym side q c s).trades = s.trades := by
  unfold _update_position
  cases _find_position s pid sym <;> rfl

theorem reduce_position_portfolios (pid : Nat) (sym : String) (q : ℚ)
    (s : ServiceState) : (_reduce_position pid sym q s).portfolios = s.portfolios := by
  unfold _reduce_position
  cases _find_position s pid sym with
  | none => rfl
  | some pos => dsimp only; split <;> rfl

theorem reduce_position_orders (pid : Nat) (sym : String) (q : ℚ)
    (s : ServiceState) : (_reduce_position pid sym q s).orders = s.orders := by
  unfold _reduce_position
  cases _find_position s pid sym with
  | none => rfl
  | some pos => dsimp only; split <;> rfl

theorem reduce_position_trades (pid : Nat) (sym : String) (q : ℚ)
    (s : ServiceState) : (_reduce_position pid sym q s).trades = s.trades := by
  unfold _reduce_position
  cases _find_position s pid sym with
  | none => rfl
  | some pos => dsimp only; split <;> rfl

theorem finishFill_positions (oid : Nat) (p fee : ℚ) (o : OrderData) (s : ServiceState) :
    (finishFill oid p fee o s).positions = s.positions := rfl

theorem finishFill_trades (oid : Nat) (p fee : ℚ) (o : OrderData) (s : ServiceState) :
    (finishFill oid p fee o s).trades = s.trades ++
      [{ id := s.nextId, portfolio_id := o.portfolio_id, order_id := oid,
         symbol := o.symbol, side := o.side, quantity := o.quantity,
         price := p, fee := fee, executed_at := s.clock }] := rfl

theorem finishFill_orders (oid : Nat) (p fee : ℚ) (o : OrderData) (s : ServiceState) :
    (finishFill oid p fee o s).orders =
      updateFirst (fun x => x.id == oid)
        (fun x => { x with status := OrderStatus.filled, filled_quantity := x.quantity,
                           average_fill_price := some p, filled_at := some s.clock })
        s.orders := rfl

theorem finishFill_portfolios (oid : Nat) (p fee : ℚ) (o : OrderData) (s : ServiceState) :
    (finishFill oid p fee o s).portfolios =
      updateFirst (fun x => x.id == o.portfolio_id)
        (fun x => { x with updated_at := s.clock }) s.portfolios := rfl

/-! ### Branch equations for `_execute_order` -/

theorem exec_of_order_none {s : ServiceState} {oid : Nat} (p : ℚ)
    (h : findOrder s oid = none) : _execute_order oid p s = s := by
  unfold _execute_order
  rw [h]

theorem exec_of_portfolio_none {s : ServiceState} {oid : Nat} (p : ℚ)
    {order : OrderData} (ho : findOrder s oid = some order)
    (hpf : findPortfolio s order.portfolio_id = none) :
    _execute_order oid p s = s := by
  unfold _execute_order
  rw [ho]
  dsimp only
  rw [hpf]

theorem exec_buy_reject {s : ServiceState} {oid : Nat} {price : ℚ}
    {order : OrderData} {portfolio : PortfolioData}
    (ho : findOrder s oid = some order)
    (hpf : findPortfolio s order.portfolio_id = some portfolio)
    (hside : order.side = OrderSide.buy)
    (hcash : portfolio.cash_balance <
      price * order.quantity + price * order.quantity * fee_rate) :
    _execute_order oid price s =
      updateOrderData s oid (fun o => { o with status := OrderStatus.rejected }) := by
  unfold _execute_order
  rw [ho]; dsimp only
  rw [hpf]; dsimp only
  rw [hside]; dsimp only
  rw [if_pos hcash]

theorem exec_buy_fill {s : ServiceState} {oid : Nat} {price : ℚ}
    {order : OrderData} {portfolio : PortfolioData}
    (ho : findOrder s oid = some order)
    (hpf : findPortfolio s order.portfolio_id = some portfolio)
    (hside : order.side = OrderSide.buy)
    (hcash : ¬ portfolio.cash_balance <
      price * order.quantity + price * order.quantity * fee_rate) :
    _execute_order oid price s =
      finishFill oid price (price * order.quantity * fee_rate) order
        (_update_position order.portfolio_id order.symbol PositionSide.long
          order.quantity (price * order.quantity)
          (updatePortfolio s order.portfolio_id (fun p =>
            { p with cash_balance := p.cash_balance -
                (price * order.quantity + price * order.quantity * fee_rate) }))) := by
  unfold _execute_order
  rw [ho]; dsimp only
  rw [hpf]; dsimp only
  rw [hside]; dsimp only
  rw [if_neg hcash]

theorem exec_sell_reject_nopos {s : ServiceState} {oid : Nat} {price : ℚ}
    {order : OrderData} {portfolio : PortfolioData}
    (ho : findOrder s oid = some order)
    (hpf : findPortfolio s order.portfolio_id = some portfolio)
    (hside : order.side = OrderSide.sell)
    (hpos : _find_position s order.portfolio_id order.symbol = none) :
    _execute_order oid price s =
      updateOrderData s oid (fun o => { o with status := OrderStatus.rejected }) := by
  unfold _execute_order
  rw [ho]; dsimp only
  rw [hpf]; dsimp only
  rw [hside]; dsimp only
  rw [hpos]

theorem exec_sell_reject_insufficient {s : ServiceState} {oid : Nat} {price : ℚ}
    {order : OrderData} {portfolio : PortfolioData} {position : PositionData}
    (ho : findOrder s oid = some order)
    (hpf : findPortfolio s order.portfolio_id = some portfolio)
    (hside : order.side = OrderSide.sell)
    (hpos : _find_position s order.portfolio_id order.symbol = some position)
    (hlt : position.quantity < order.quantity) :
    _execute_order oid price s =
      updateOrderData s oid (fun o => { o with status := OrderStatus.rejected }) := by
  unfold _execute_order
  rw [ho]; dsimp only
  rw [hpf]; dsimp only
  rw [hside]; dsimp only
  rw [hpos]; dsimp only
  rw [if_pos hlt]

theorem exec_sell_fill {s : ServiceState} {oid : Nat} {price : ℚ}
    {order : OrderData} {portfolio : PortfolioData} {position : PositionData}
    (ho : findOrder s oid = some order)
    (hpf : findPortfolio s order.portfolio_id = some portfolio)
    (hside : order.side = OrderSide.sell)
    (hpos : _find_position s order.portfolio_id order.symbol = some position)
    (hge : ¬ position.quantity < order.quantity) :
    _execute_order oid price s =
      finishFill oid price (price * order.quantity * fee_rate) order
        (_reduce_position order.portfolio_id order.symbol order.quantity
          (updatePortfolio s order.portfolio_id (fun p =>
            { p with cash_balance := p.cash_balance +
                (price * order.quantity - price * order.quantity * fee_rate) }))) := by
  unfold _execute_order
  rw [ho]; dsimp only
  rw [hpf]; dsimp only
  rw [hside]; dsimp only
  rw [hpos]; dsimp only
  rw [if_neg hge]

end PaperTrading

namespace PaperTrading

/-! ### Preservation of the ledger invariants -/

theorem mem_of_findOrder {s : ServiceState} {oid : Nat} {o : OrderData}
    (h : findOrder s oid = some o) : o ∈ s.orders :=
  List.mem_of_find?_eq_some h

theorem mem_of_findPortfolio {s : ServiceState} {pid : Nat} {pf : PortfolioData}
    (h : findPortfolio s pid = some pf) : pf ∈ s.portfolios :=
  List.mem_of_find?_eq_some h

theorem mem_of_find_position {s : ServiceState} {pid : Nat} {sym : String}
    {pos : PositionData} (h : _find_position s pid sym = some pos) :
    pos ∈ s.positions :=
  List.mem_of_find?_eq_some h

theorem good_updateOrderData {s : ServiceState} {oid : Nat} {f : OrderData → OrderData}
    (hg : GoodState s) (hf : ∀ o, GoodOrder o → GoodOrder (f o)) :
    GoodState (updateOrderData s oid f) := by
  refine ⟨hg.1, ?_, hg.2.2⟩
  intro o ho
  rcases mem_updateFirst ho with ho | ⟨z, hz, rfl⟩
  · exact hg.2.1 o ho
  · exact hf z (hg.2.1 z (List.mem_of_find?_eq_some hz))

theorem update_position_quantity_pos {pid : Nat} {sym : String} {side : PositionSide}
    {q c : ℚ} {s : ServiceState}
    (h : ∀ x ∈ s.positions, 0 < x.quantity) (hq : 0 < q) :
    ∀ x ∈ (_update_position pid sym side q c s).positions, 0 < x.quantity := by
  unfold _update_position
  cases hf : _find_position s pid sym with
  | some pos =>
    intro x hx
    rcases mem_updateFirst hx with hx | ⟨z, hz, rfl⟩
    · exact h x hx
    · exact add_pos (h z (List.mem_of_find?_eq_some hz)) hq
  | none =>
    intro x hx
    rcases List.mem_append.1 hx with hx | hx
    · exact h x hx
    · rcases List.mem_singleton.1 hx with rfl
      exact hq

theorem reduce_position_quantity_pos {pid : Nat} {sym : String} {q : ℚ}
    {s : ServiceState} (h : ∀ x ∈ s.positions, 0 < x.quantity) :
    ∀ x ∈ (_reduce_position pid sym q s).positions, 0 < x.quantity := by
  unfold _reduce_position
  cases hf : _find_position s pid sym with
  | none => exact h
  | some pos =>
    dsimp only
    by_cases hsmall : pos.quantity - q ≤ 1 / 10000
    · rw [if_pos hsmall]
      intro x hx
      exact h x (List.mem_of_mem_eraseP hx)
    · rw [if_neg hsmall]
      intro x hx
      rcases mem_updateFirst hx with hx | ⟨z, hz, rfl⟩
      · exact h x hx
      · dsimp only
        have h4 : (0 : ℚ) < 1 / 10000 := by norm_num
        linarith [lt_of_not_le hsmall]

theorem good_finishFill {oid : Nat} {p fee : ℚ} {o : OrderData} {s : ServiceState}
    (hg : GoodState s) : GoodState (finishFill oid p fee o s) := by
  refine ⟨?_, ?_, ?_⟩
  · rw [finishFill_portfolios]
    intro pf hpf
    rcases mem_updateFirst hpf with hpf | ⟨z, hz, rfl⟩
    · exact hg.1 pf hpf
    · exact hg.1 z (List.mem_of_find?_eq_some hz)
  · rw [finishFill_orders]
    intro x hx
    rcases mem_updateFirst hx with hx | ⟨z, hz, rfl⟩
    · exact hg.2.1 x hx
    · exact hg.2.1 z (List.mem_of_find?_eq_some hz)
  · rw [finishFill_positions]
    exact hg.2.2

theorem good_exec {oid : Nat} {price : ℚ} {s : ServiceState}
    (hg : GoodState s) (hp : 0 ≤ price) : GoodState (_execute_order oid price s) := by
  cases ho : findOrder s oid with
  | none => rw [exec_of_order_none price ho]; exact hg
  | some order =>
  cases hpf : findPortfolio s order.portfolio_id with
  | none => rw [exec_of_portfolio_none price ho hpf]; exact hg
  | some portfolio =>
  have hoq : 0 < order.quantity := (hg.2.1 order (mem_of_findOrder ho)).1
  have hpq : 0 ≤ price * order.quantity := mul_nonneg hp hoq.le
  cases hside : order.side with
  | buy =>
    by_cases hcash : portfolio.cash_balance <
        price * order.quantity + price * order.quantity * fee_rate
    · rw [exec_buy_reject ho hpf hside hcash]
      exact good_updateOrderData hg (fun o h => h)
    · rw [exec_buy_fill ho hpf hside hcash]
      apply good_finishFill
      have hg1 : GoodState (updatePortfolio s order.portfolio_id (fun p =>
          { p with cash_balance := p.cash_balance -
              (price * order.quantity + price * order.quantity * fee_rate) })) := by
        refine ⟨?_, hg.2.1, hg.2.2⟩
        intro pf hmem
        rcases mem_updateFirst hmem with hmem | ⟨z, hz, rfl⟩
        · exact hg.1 pf hmem
        · have hz' : z = portfolio := by
            have : findPortfolio s order.portfolio_id = some z := hz
            rw [hpf] at this
            exact (Option.some.inj this).symm
          subst hz'
          dsimp only
          linarith [not_lt.1 hcash]
      refine ⟨?_, ?_, ?_⟩
      · rw [update_position_portfolios]
        exact hg1.1
      · rw [update_position_orders]
        exact hg1.2.1
      · exact update_position_quantity_pos hg1.2.2 hoq
  | sell =>
    cases hpos : _find_position s order.portfolio_id order.symbol with
    | none =>
      rw [exec_sell_reject_nopos ho hpf hside hpos]
      exact good_updateOrderData hg (fun o h => h)
    | some position =>
      by_cases hlt : position.quantity < order.quantity
      · rw [exec_sell_reject_insufficient ho hpf hside hpos hlt]
        exact good_updateOrderData hg (fun o h => h)
      · rw [exec_sell_fill ho hpf hside hpos hlt]
        apply good_finishFill
        have hrev : 0 ≤ price * order.quantity - price * order.quantity * fee_rate := by
          rw [fee_rate]
          linarith
        have hg1 : GoodState (updatePortfolio s order.portfolio_id (fun p =>
            { p with cash_balance := p.cash_balance +
                (price * order.quantity - price * order.quantity * fee_rate) })) := by
          refine ⟨?_, hg.2.1, hg.2.2⟩
          intro pf hmem
          rcases mem_updateFirst hmem with hmem | ⟨z, hz, rfl⟩
          · exact hg.1 pf hmem
          · have hz' : z ∈ s.portfolios := List.mem_of_find?_eq_some hz
            dsimp only
            linarith [hg.1 z hz']
        refine ⟨?_, ?_, ?_⟩
        · rw [reduce_position_portfolios]
          exact hg1.1
        · rw [reduce_position_orders]
          exact hg1.2.1
        · exact reduce_position_quantity_pos hg1.2.2

end PaperTrading

namespace PaperTrading

theorem triggerCheck_cases (o : OrderData) (cp : ℚ) :
    (triggerCheck o cp).2 = cp ∨ ∃ p, o.price = some p ∧ (triggerCheck o cp).2 = p := by
  unfold triggerCheck
  split
  · rcases hp : o.price with _ | p
    · simp
    · dsimp only
      split
      · exact Or.inr ⟨p, rfl, rfl⟩
      · simp
  · split
    · rcases hsp : o.stop_price with _ | sp
      · simp
      · dsimp only; split <;> simp
    · split
      · rcases hsp : o.stop_price with _ | sp
        · simp
        · dsimp only; split <;> simp
      · simp

theorem triggerCheck_snd_nonneg {o : OrderData} {cp : ℚ} (hgo : GoodOrder o)
    (hcp : 0 ≤ cp) : 0 ≤ (triggerCheck o cp).2 := by
  rcases triggerCheck_cases o cp with h | ⟨p, hp, h⟩
  · rw [h]; exact hcp
  · rw [h]; exact (hgo.2 p hp).le

theorem lookupPrice_nonneg {prices : List (String × ℚ)}
    (hpr : ∀ pr ∈ prices, 0 ≤ pr.2) {sym : String} {cp : ℚ}
    (h : lookupPrice prices sym = some cp) : 0 ≤ cp := by
  unfold lookupPrice at h
  cases hf : prices.find? (fun pr => pr.1 == sym) with
  | none => rw [hf] at h; cases h
  | some pr =>
    rw [hf] at h
    simp only [Option.map_some'] at h
    injection h with h
    subst h
    exact hpr pr (List.mem_of_find?_eq_some hf)

end PaperTrading


namespace PaperTrading

theorem good_sweepStep {prices : List (String × ℚ)}
    (hpr : ∀ pr ∈ prices, 0 ≤ pr.2) {o : OrderData} (hgo : GoodOrder o)
    (acc : ServiceState × List OrderData) (hg : GoodState acc.1) :
    GoodState (sweepStep prices acc o).1 := by
  unfold sweepStep
  split
  · exact hg
  · cases hlp : lookupPrice prices o.symbol with
    | none => exact hg
    | some cp =>
      dsimp only
      split
      · have hcp := lookupPrice_nonneg hpr hlp
        have h1 : GoodState (_execute_order o.id (triggerCheck o cp).2 acc.1) :=
          good_exec hg (triggerCheck_snd_nonneg hgo hcp)
        cases findOrder (_execute_order o.id (triggerCheck o cp).2 acc.1) o.id <;> exact h1
      · exact hg

theorem good_sweep_fold {prices : List (String × ℚ)}
    (hpr : ∀ pr ∈ prices, 0 ≤ pr.2) :
    ∀ (rest : List OrderData), (∀ o ∈ rest, GoodOrder o) →
      ∀ (acc : ServiceState × List OrderData), GoodState acc.1 →
        GoodState ((rest.foldl (sweepStep prices) acc).1)
  | [], _, _, hg => hg
  | o :: rest, hrest, acc, hg => by
    rw [List.foldl_cons]
    exact good_sweep_fold hpr rest (fun x hx => hrest x (List.mem_cons_of_mem _ hx)) _
      (good_sweepStep hpr (hrest o (List.mem_cons_self _ _)) acc hg)

theorem good_update_market_prices {prices : List (String × ℚ)} {s : ServiceState}
    (hpr : ∀ pr ∈ prices, 0 ≤ pr.2) (hg : GoodState s) :
    GoodState (update_market_prices prices s).1 :=
  good_sweep_fold hpr s.orders hg.2.1 (s, []) hg

theorem good_create_portfolio {req : CreatePortfolioRequest} {s : ServiceState}
    (hg : GoodState s) (hv : 0 < req.initial_balance) :
    GoodState (create_portfolio req s).1 := by
  refine ⟨?_, hg.2.1, hg.2.2⟩
  intro pf hpf
  rcases List.mem_append.1 hpf with h | h
  · exact hg.1 pf h
  · rcases List.mem_singleton.1 h with rfl
    exact le_of_lt hv

theorem good_add_order {s : ServiceState} (hg : GoodState s) {o : OrderData}
    (hgo : GoodOrder o) (n : Nat) :
    GoodState { s with orders := s.orders ++ [o], nextId := n } := by
  refine ⟨hg.1, ?_, hg.2.2⟩
  intro x hx
  rcases List.mem_append.1 hx with h | h
  · exact hg.2.1 x h
  · rcases List.mem_singleton.1 h with rfl
    exact hgo

theorem good_create_order {pid : Nat} {req : CreateOrderRequest} {cp : ℚ}
    {s : ServiceState} (hg : GoodState s) (hreq : ValidOrderRequest req)
    (hcp : 0 ≤ cp) : GoodState (create_order pid req cp s).1 := by
  unfold create_order
  split
  · exact hg
  · dsimp only
    split
    · exact good_exec (good_add_order hg ⟨hreq.1, hreq.2.1⟩ _) hcp
    · split
      · rcases hp : req.price with _ | p
        · exact good_add_order hg ⟨hreq.1, by intro x hx; simp at hx⟩ (s.nextId + 1)
        · dsimp only
          split
          · exact good_exec
              (good_add_order hg ⟨hreq.1, fun x hx => hreq.2.1 x (hp ▸ hx)⟩ _)
              (le_of_lt (hreq.2.1 p hp))
          · exact good_add_order hg ⟨hreq.1, fun x hx => hreq.2.1 x (hp ▸ hx)⟩ (s.nextId + 1)
      · exact good_add_order hg ⟨hreq.1, hreq.2.1⟩ (s.nextId + 1)

theorem good_cancel {oid : Nat} {s : ServiceState} (hg : GoodState s) :
    GoodState (cancel_order oid s).1 := by
  unfold cancel_order
  cases ho : findOrder s oid with
  | none => exact hg
  | some o =>
    dsimp only
    split
    · exact hg
    · exact good_updateOrderData hg (fun x h => h)

theorem good_applyOp {s : ServiceState} {op : Op} (hg : GoodState s)
    (hv : op.Valid) : GoodState (applyOp s op) := by
  cases op with
  | mkPortfolio req => exact good_create_portfolio hg hv
  | mkOrder pid req cp => exact good_create_order hg hv.1 hv.2
  | cancel oid => exact good_cancel hg
  | sweep prices => exact good_update_market_prices hv hg

theorem good_init : GoodState initState := by
  refine ⟨?_, ?_, ?_⟩ <;> intro x hx <;> simp [initState] at hx

theorem good_applyOps :
    ∀ (ops : List Op), (∀ op ∈ ops, op.Valid) →
      ∀ (s : ServiceState), GoodState s → GoodState (applyOps s ops)
  | [], _, _, hg => hg
  | op :: ops, hv, s, hg => by
    rw [applyOps, List.foldl_cons]
    exact good_applyOps ops (fun o ho => hv o (List.mem_cons_of_mem _ ho)) _
      (good_applyOp hg (hv op (List.mem_cons_self _ _)))

end PaperTrading

namespace PaperTrading

/-! ### The fee law of recorded trades -/

theorem updatePortfolio_positions (s : ServiceState) (pid : Nat) (f) :
    (updatePortfolio s pid f).positions = s.positions := rfl

theorem updatePortfolio_trades (s : ServiceState) (pid : Nat) (f) :
    (updatePortfolio s pid f).trades = s.trades := rfl

/-- Every trade added by an execution obeys `fee = price × quantity ×
fee_rate`. -/
theorem exec_trades_good (oid : Nat) (p : ℚ) (s : ServiceState) :
    ∀ t ∈ (_execute_order oid p s).trades,
      t ∈ s.trades ∨ t.fee = t.price * t.quantity * fee_rate := by
  cases ho : findOrder s oid with
  | none => rw [exec_of_order_none p ho]; exact fun t ht => Or.inl ht
  | some order =>
  cases hpf : findPortfolio s order.portfolio_id with
  | none => rw [exec_of_portfolio_none p ho hpf]; exact fun t ht => Or.inl ht
  | some portfolio =>
  cases hside : order.side with
  | buy =>
    by_cases hcash : portfolio.cash_balance <
        p * order.quantity + p * order.quantity * fee_rate
    · rw [exec_buy_reject ho hpf hside hcash, updateOrderData_trades]
      exact fun t ht => Or.inl ht
    · rw [exec_buy_fill ho hpf hside hcash, finishFill_trades]
      intro t ht
      rcases List.mem_append.1 ht with h | h
      · rw [update_position_trades, updatePortfolio_trades] at h
        exact Or.inl h
      · rcases List.mem_singleton.1 h with rfl
        exact Or.inr rfl
  | sell =>
    cases hpos : _find_position s order.portfolio_id order.symbol with
    | none =>
      rw [exec_sell_reject_nopos ho hpf hside hpos, updateOrderData_trades]
      exact fun t ht => Or.inl ht
    | some position =>
      by_cases hlt : position.quantity < order.quantity
      · rw [exec_sell_reject_insufficient ho hpf hside hpos hlt, updateOrderData_trades]
        exact fun t ht => Or.inl ht
      · rw [exec_sell_fill ho hpf hside hpos hlt, finishFill_trades]
        intro t ht
        rcases List.mem_append.1 ht with h | h
        · rw [reduce_position_trades, updatePortfolio_trades] at h
          exact Or.inl h
        · rcases List.mem_singleton.1 h with rfl
          exact Or.inr rfl

/-- The trade store only ever holds trades obeying the fee law. -/
def TradesGood (s : ServiceState) : Prop :=
  ∀ t ∈ s.trades, t.fee = t.price * t.quantity * fee_rate

theorem tradesGood_exec {s : ServiceState} (h : TradesGood s) (oid : Nat) (p : ℚ) :
    TradesGood (_execute_order oid p s) :=
  fun t ht => (exec_trades_good oid p s t ht).elim (h t) id

theorem tradesGood_sweep_fold {prices : List (String × ℚ)} :
    ∀ (rest : List OrderData) (acc : ServiceState × List OrderData),
      TradesGood acc.1 → TradesGood ((rest.foldl (sweepStep prices) acc).1)
  | [], _, h => h
  | o :: rest, acc, h => by
    rw [List.foldl_cons]
    apply tradesGood_sweep_fold rest
    unfold sweepStep
    split
    · exact h
    · cases hlp : lookupPrice prices o.symbol with
      | none => exact h
      | some cp =>
        dsimp only
        split
        · have h1 := tradesGood_exec h o.id (triggerCheck o cp).2
          cases findOrder (_execute_order o.id (triggerCheck o cp).2 acc.1) o.id <;> exact h1
        · exact h

theorem tradesGood_create_order {pid : Nat} {req : CreateOrderRequest} {cp : ℚ}
    {s : ServiceState} (h : TradesGood s) :
    TradesGood (create_order pid req cp s).1 := by
  unfold create_order
  split
  · exact h
  · dsimp only
    split
    · intro t ht
      rcases exec_trades_good _ _ _ t ht with hmem | hfee
      · exact h t hmem
      · exact hfee
    · split
      · rcases hp : req.price with _ | p
        · exact h
        · dsimp only
          split
          · intro t ht
            rcases exec_trades_good _ _ _ t ht with hmem | hfee
            · exact h t hmem
            · exact hfee
          · exact h
      · exact h

theorem tradesGood_cancel {oid : Nat} {s : ServiceState} (h : TradesGood s) :
    TradesGood (cancel_order oid s).1 := by
  unfold cancel_order
  cases ho : findOrder s oid with
  | none => exact h
  | some o =>
    dsimp only
    split
    · exact h
    · exact h

theorem tradesGood_applyOp {s : ServiceState} (h : TradesGood s) (op : Op) :
    TradesGood (applyOp s op) := by
  cases op with
  | mkPortfolio req => exact h
  | mkOrder pid req cp => exact tradesGood_create_order h
  | cancel oid => exact tradesGood_cancel h
  | sweep prices => exact tradesGood_sweep_fold s.orders (s, []) h

theorem tradesGood_applyOps :
    ∀ (ops : List Op) (s : ServiceState), TradesGood s → TradesGood (applyOps s ops)
  | [], _, h => h
  | op :: ops, s, h => by
    rw [applyOps, List.foldl_cons]
    exact tradesGood_applyOps ops _ (tradesGood_applyOp h op)

end PaperTrading

namespace PaperTrading

/-! ### Claim theorems -/

/-- C1: for every portfolio and every sequence of valid operations
(create_portfolio, create_order, cancel_order, update_market_prices),
the portfolio's `cash_balance` stays ≥ 0: a buy only debits cash after
the `cash_balance < notional + fee` check passed, and a sell only
credits the non-negative net revenue. -/
theorem C1_cash_balance_nonneg (ops : List Op) (hv : ∀ op ∈ ops, op.Valid) :
    ∀ pf ∈ (applyOps initState ops).portfolios, 0 ≤ pf.cash_balance :=
  (good_applyOps ops hv initState good_init).1

/-- Witness for C1: the buy/sell scenario sequence is valid and leaves
every cash balance non-negative. -/
theorem C1_cash_balance_nonneg_witness :
    ((applyOps initState
      [Op.mkPortfolio ⟨100000⟩,
       Op.mkOrder 0 ⟨"BTC/USD", OrderSide.buy, OrderType.market, 1/2, none, none⟩ 50000,
       Op.mkOrder 0 ⟨"BTC/USD", OrderSide.sell, OrderType.market, 1/2, none, none⟩ 52000]).portfolios.all
      (fun pf => decide (0 ≤ pf.cash_balance))) = true := by
  have h := C1_cash_balance_nonneg
    [Op.mkPortfolio ⟨100000⟩,
     Op.mkOrder 0 ⟨"BTC/USD", OrderSide.buy, OrderType.market, 1/2, none, none⟩ 50000,
     Op.mkOrder 0 ⟨"BTC/USD", OrderSide.sell, OrderType.market, 1/2, none, none⟩ 52000]
    (by
      intro op hop
      simp only [List.mem_cons, List.not_mem_nil, or_false] at hop
      rcases hop with rfl | rfl | rfl
      · show (0 : ℚ) < 100000
        norm_num
      · exact ⟨⟨by norm_num, by simp, by simp⟩, by norm_num⟩
      · exact ⟨⟨by norm_num, by simp, by simp⟩, by norm_num⟩)
  rw [List.all_eq_true]
  intro pf hpf
  exact decide_eq_true (h pf hpf)

/-- C3: with `fee_rate = 0.001` and starting cash 100000, a market buy
of 0.5 units at 50000 yields fee 25, cash 74975 and a position of
quantity 0.5, cost basis 25000, average entry 50000; the subsequent
market sell of 0.5 units at 52000 yields fee 26, net revenue 25974,
cash 100949, the position is deleted and exactly one sell Trade is
recorded. -/
theorem C3_scenario_accounting :
    scenarioA.portfolios.map (fun pf => pf.cash_balance) = [74975] ∧
    scenarioA.trades.map (fun t => (t.side, t.fee)) = [(OrderSide.buy, 25)] ∧
    scenarioA.positions.map (fun pos =>
      (pos.quantity, pos.total_cost, pos.average_entry_price)) = [(1/2, 25000, 50000)] ∧
    scenarioB.portfolios.map (fun pf => pf.cash_balance) = [100949] ∧
    scenarioB.positions = [] ∧
    scenarioB.trades.map (fun t => (t.side, t.quantity, t.price, t.fee)) =
      [(OrderSide.buy, 1/2, 50000, 25), (OrderSide.sell, 1/2, 52000, 26)] ∧
    (scenarioB.trades.filter (fun t => t.side = OrderSide.sell)).map
      (fun t => t.quantity * t.price - t.fee) = [25974] := by
  norm_num [scenarioA, scenarioB, applyOps, applyOp, create_portfolio, create_order,
    _execute_order, findPortfolio, findOrder, updatePortfolio, updateOrderData,
    _update_position, _reduce_position, _find_position, finishFill, fee_rate,
    otruthy, initState, updateFirst, PositionData.average_entry_price,
    List.filter_cons, List.filter_nil, decide_eq_true_eq]
  have hne : OrderSide.buy ≠ OrderSide.sell := by simp
  rw [if_neg hne]
  norm_num

/-- C5 counterexample: a valid market buy of 0.00005 units at price 1
creates a position whose quantity 0.00005 is ≤ the 1e-4 epsilon, and
that position persists in the store — refuting "no position with
quantity ≤ 1e-4 exists in the store". -/
theorem C5_small_position_persists :
    (∀ op ∈ [Op.mkPortfolio ⟨100000⟩,
             Op.mkOrder 0 ⟨"BTC/USD", OrderSide.buy, OrderType.market, 1/20000, none, none⟩ 1],
      Op.Valid op) ∧
    scenarioTinyBuy.positions.map (fun pos => pos.quantity) = [1/20000] ∧
    ((1 : ℚ) / 20000 ≤ 1 / 10000) := by
  refine ⟨?_, ?_, by norm_num⟩
  · intro op hop
    simp only [List.mem_cons, List.not_mem_nil, or_false] at hop
    rcases hop with rfl | rfl
    · show (0 : ℚ) < 100000
      norm_num
    · exact ⟨⟨by norm_num, by simp, by simp⟩, by norm_num⟩
  · norm_num [scenarioTinyBuy, applyOps, applyOp, create_portfolio, create_order,
      _execute_order, findPortfolio, findOrder, updatePortfolio, updateOrderData,
      _update_position, _reduce_position, _find_position, finishFill, fee_rate,
      otruthy, initState, updateFirst]

/-- C6 counterexample: in the buy/sell scenario the recorded SELL trade
has `total = 26026 = quantity × price + fee`, not the claimed
`quantity × price − fee = 25974` — the code adds the fee for both
sides. -/
theorem C6_sell_total_not_net :
    scenarioB.trades.map (fun t => (t.side, TradeData.total t, t.quantity * t.price - t.fee)) =
      [(OrderSide.buy, 25025, 24975), (OrderSide.sell, 26026, 25974)] := by
  norm_num [scenarioB, scenarioA, applyOps, applyOp, create_portfolio, create_order,
    _execute_order, findPortfolio, findOrder, updatePortfolio, updateOrderData,
    _update_position, _reduce_position, _find_position, finishFill, fee_rate,
    otruthy, initState, updateFirst, TradeData.total]

/-- C6 (amended): for every recorded trade, `total = quantity × price +
fee` regardless of side (a sell's total is not net of fee), and the fee
itself always equals `price × quantity × fee_rate`. -/
theorem C6_trade_total_fee_law (ops : List Op) :
    ∀ t ∈ (applyOps initState ops).trades,
      TradeData.total t = t.quantity * t.price + t.fee ∧
      t.fee = t.price * t.quantity * fee_rate := by
  intro t ht
  have hfee : t.fee = t.price * t.quantity * fee_rate :=
    tradesGood_applyOps ops initState (fun u hu => absurd hu (by simp [initState])) t ht
  exact ⟨rfl, hfee⟩

/-- Witness for the amended C6, at the scenario's recorded sell
trade. -/
theorem C6_trade_total_fee_law_witness :
    TradeData.total ⟨5, 0, 4, "BTC/USD", OrderSide.sell, 1/2, 52000, 26, 3⟩ =
        (⟨5, 0, 4, "BTC/USD", OrderSide.sell, 1/2, 52000, 26, 3⟩ : TradeData).quantity *
          (⟨5, 0, 4, "BTC/USD", OrderSide.sell, 1/2, 52000, 26, 3⟩ : TradeData).price +
          (⟨5, 0, 4, "BTC/USD", OrderSide.sell, 1/2, 52000, 26, 3⟩ : TradeData).fee ∧
      (⟨5, 0, 4, "BTC/USD", OrderSide.sell, 1/2, 52000, 26, 3⟩ : TradeData).fee =
        (⟨5, 0, 4, "BTC/USD", OrderSide.sell, 1/2, 52000, 26, 3⟩ : TradeData).price *
          (⟨5, 0, 4, "BTC/USD", OrderSide.sell, 1/2, 52000, 26, 3⟩ : TradeData).quantity *
          fee_rate := by
  apply C6_trade_total_fee_law
    [Op.mkPortfolio ⟨100000⟩,
     Op.mkOrder 0 ⟨"BTC/USD", OrderSide.buy, OrderType.market, 1/2, none, none⟩ 50000,
     Op.mkOrder 0 ⟨"BTC/USD", OrderSide.sell, OrderType.market, 1/2, none, none⟩ 52000]
  norm_num [applyOps, applyOp, create_portfolio, create_order,
    _execute_order, findPortfolio, findOrder, updatePortfolio, updateOrderData,
    _update_position, _reduce_position, _find_position, finishFill, fee_rate,
    otruthy, initState, updateFirst]

end PaperTrading

namespace PaperTrading

theorem eraseP_key_of_nodup {key : α → Nat} {l : List α}
    (hnd : (l.map key).Nodup) {x : α} (hx : x ∈ l) :
    ∀ y ∈ l.eraseP (fun z => key z == key x), key y ≠ key x := by
  induction l with
  | nil => cases hx
  | cons a l ih =>
    simp only [List.map_cons, List.nodup_cons] at hnd
    by_cases hpa : (key a == key x) = true
    · have he0 : List.eraseP (fun z => key z == key x) (a :: l) = l :=
        List.eraseP_cons_of_pos hpa
      rw [he0]
      intro y hy he
      have hax : key a = key x := by simpa using hpa
      exact hnd.1 (by rw [hax, ← he]; exact List.mem_map_of_mem key hy)
    · have he0 : List.eraseP (fun z => key z == key x) (a :: l) =
          a :: List.eraseP (fun z => key z == key x) l :=
        List.eraseP_cons_of_neg hpa
      rw [he0]
      intro y hy
      rcases List.mem_cons.1 hy with rfl | hy
      · exact fun he => hpa (by simp [he])
      · rcases List.mem_cons.1 hx with rfl | hx'
        · exact absurd (by simp) hpa
        · exact ih hnd.2 hx' y hy

/-- C5 (amended): after any sequence of valid operations every stored
position has quantity > 0 (hence ≥ 0), and a sell-side reduction
deletes the affected position exactly when its remaining quantity is
≤ 1e-4; however — per the counterexample — a buy may create a position
with quantity ≤ 1e-4 that persists, so the store-wide "no position
≤ 1e-4" invariant does not hold. -/
theorem C5_position_quantities :
    (∀ (ops : List Op), (∀ op ∈ ops, op.Valid) →
      ∀ pos ∈ (applyOps initState ops).positions, 0 < pos.quantity) ∧
    (∀ (s : ServiceState) (pid : Nat) (sym : String) (q : ℚ) (pos : PositionData),
      (s.positions.map (fun p => p.id)).Nodup →
      _find_position s pid sym = some pos →
      ((pos.quantity - q ≤ 1 / 10000 →
          ∀ p ∈ (_reduce_position pid sym q s).positions, p.id ≠ pos.id) ∧
       (1 / 10000 < pos.quantity - q →
          ∃ p ∈ (_reduce_position pid sym q s).positions,
            p.id = pos.id ∧ p.quantity = pos.quantity - q))) := by
  constructor
  · intro ops hv pos hpos
    exact (good_applyOps ops hv initState good_init).2.2 pos hpos
  · intro s pid sym q pos hnd hfind
    constructor
    · intro hsmall p hp
      have heq : _reduce_position pid sym q s =
          { s with positions := s.positions.eraseP (fun z => z.id == pos.id) } := by
        unfold _reduce_position
        rw [hfind]
        dsimp only
        rw [if_pos hsmall]
      rw [heq] at hp
      exact eraseP_key_of_nodup hnd (mem_of_find_position hfind) p hp
    · intro hbig
      have heq : _reduce_position pid sym q s =
          { s with positions :=
              (updateFirst (fun z => z.id == pos.id)
                (fun z => { z with quantity := pos.quantity - q,
                                   total_cost := pos.total_cost -
                                     pos.total_cost / pos.quantity * q })
                s.positions) } := by
        unfold _reduce_position
        rw [hfind]
        dsimp only
        rw [if_neg (not_le.2 hbig)]
      have hfp : s.positions.find? (fun z => z.id == pos.id) = some pos :=
        find?_key_of_nodup hnd (mem_of_find_position hfind)
      have hself := find?_updateFirst_self hfp
        (f := fun z => { z with quantity := pos.quantity - q,
                                total_cost := pos.total_cost -
                                  pos.total_cost / pos.quantity * q })
        (by simp)
      rw [heq]
      exact ⟨_, List.mem_of_find?_eq_some hself, rfl, rfl⟩

/-- Witness for the amended C5: the tiny-buy state has only positive
quantities; reducing a quantity-1 position by 1 deletes it, while
reducing it by 1/2 keeps it at quantity 1/2. -/
theorem C5_position_quantities_witness :
    ((applyOps initState
        [Op.mkPortfolio ⟨100000⟩,
         Op.mkOrder 0 ⟨"BTC/USD", OrderSide.buy, OrderType.market, 1/20000, none, none⟩ 1]).positions.all
      (fun pos => decide (0 < pos.quantity))) = true ∧
    ((_reduce_position 0 "BTC/USD" 1 wReduceState).positions.all
      (fun p => decide (p.id ≠ wPosition.id))) = true ∧
    ((_reduce_position 0 "BTC/USD" (1/2) wReduceState).positions.any
      (fun p => decide (p.id = wPosition.id ∧ p.quantity = wPosition.quantity - 1/2))) = true := by
  refine ⟨?_, ?_, ?_⟩
  · have h := C5_position_quantities.1
      [Op.mkPortfolio ⟨100000⟩,
       Op.mkOrder 0 ⟨"BTC/USD", OrderSide.buy, OrderType.market, 1/20000, none, none⟩ 1]
      (by
        intro op hop
        simp only [List.mem_cons, List.not_mem_nil, or_false] at hop
        rcases hop with rfl | rfl
        · show (0 : ℚ) < 100000
          norm_num
        · exact ⟨⟨by norm_num, by simp, by simp⟩, by norm_num⟩)
    rw [List.all_eq_true]
    intro pos hpos
    exact decide_eq_true (h pos hpos)
  · have h := (C5_position_quantities.2 wReduceState 0 "BTC/USD" 1 wPosition
      (by simp [wReduceState, wPosition])
      (by simp [wReduceState, wPosition, _find_position, List.find?_cons])).1
      (by norm_num [wPosition])
    rw [List.all_eq_true]
    intro p hp
    exact decide_eq_true (h p hp)
  · have h := (C5_position_quantities.2 wReduceState 0 "BTC/USD" (1/2) wPosition
      (by simp [wReduceState, wPosition])
      (by simp [wReduceState, wPosition, _find_position, List.find?_cons])).2
      (by norm_num [wPosition])
    rw [List.any_eq_true]
    rcases h with ⟨p, hp, h1, h2⟩
    exact ⟨p, hp, decide_eq_true ⟨h1, h2⟩⟩

/-- C7: `cancel_order` succeeds only while the order is PENDING, in
which case it sets status CANCELLED and the cancellation timestamp and
touches nothing else; on a FILLED, CANCELLED or REJECTED order it
raises and changes no state. -/
theorem C7_cancel_only_pending (s : ServiceState) (oid : Nat) (order : OrderData)
    (ho : findOrder s oid = some order) :
    (order.status = OrderStatus.pending →
      (cancel_order oid s).2 = Except.ok (some oid) ∧
      findOrder (cancel_order oid s).1 oid =
        some { order with status := OrderStatus.cancelled,
                          cancelled_at := some s.clock } ∧
      (cancel_order oid s).1.portfolios = s.portfolios ∧
      (cancel_order oid s).1.positions = s.positions ∧
      (cancel_order oid s).1.trades = s.trades) ∧
    (order.status ≠ OrderStatus.pending →
      (cancel_order oid s).1 = s ∧
      (cancel_order oid s).2 = Except.error "Cannot cancel order") := by
  constructor
  · intro hpend
    have hne : ¬ order.status ≠ OrderStatus.pending := by simp [hpend]
    unfold cancel_order
    rw [ho]
    dsimp only
    rw [if_neg hne]
    refine ⟨rfl, ?_, rfl, rfl, rfl⟩
    show (updateFirst (fun o => o.id == oid)
        (fun o => { o with status := OrderStatus.cancelled,
                           cancelled_at := some s.clock }) s.orders).find?
        (fun o => o.id == oid) =
      some { order with status := OrderStatus.cancelled,
                        cancelled_at := some s.clock }
    have hid : order.id = oid := by
      have h1 := List.find?_some ho
      simpa using h1
    have hpx :
        (({ order with status := OrderStatus.cancelled, cancelled_at := some s.clock } : OrderData).id == oid) = true := by
      simp [hid]
    exact find?_updateFirst_self ho hpx
  · intro hne
    unfold cancel_order
    rw [ho]
    dsimp only
    rw [if_pos hne]
    exact ⟨rfl, rfl⟩

/-- Witness for C7: cancelling the pending order of `wCancelState`
succeeds and stamps it; cancelling the filled one fails and leaves the
state untouched. -/
theorem C7_cancel_only_pending_witness :
    ((cancel_order 1 wCancelState).2 = Except.ok (some 1) ∧
      findOrder (cancel_order 1 wCancelState).1 1 =
        some { wPending with status := OrderStatus.cancelled,
                             cancelled_at := some wCancelState.clock } ∧
      (cancel_order 1 wCancelState).1.portfolios = wCancelState.portfolios ∧
      (cancel_order 1 wCancelState).1.positions = wCancelState.positions ∧
      (cancel_order 1 wCancelState).1.trades = wCancelState.trades) ∧
    ((cancel_order 2 wCancelState).1 = wCancelState ∧
      (cancel_order 2 wCancelState).2 = Except.error "Cannot cancel order") := by
  constructor
  · exact (C7_cancel_only_pending wCancelState 1 wPending
      (by simp [findOrder, wCancelState, wPending, wFilled, List.find?_cons])).1 rfl
  · exact (C7_cancel_only_pending wCancelState 2 wFilled
      (by simp [findOrder, wCancelState, wPending, wFilled, List.find?_cons])).2 (by simp [wFilled])

end PaperTrading

namespace PaperTrading

/-- C2: execution is atomic on rejection — when a buy's
`notional + fee` exceeds the cash balance, or a sell exceeds the held
position (or has none), `_execute_order` only flips the order's status
to REJECTED: cash, every position and the trade history are left
exactly as they were and no Trade is recorded. -/
theorem C2_rejection_is_atomic (s : ServiceState) (oid : Nat) (price : ℚ)
    (order : OrderData) (portfolio : PortfolioData)
    (ho : findOrder s oid = some order)
    (hpf : findPortfolio s order.portfolio_id = some portfolio)
    (hrej : (order.side = OrderSide.buy ∧
              portfolio.cash_balance <
                price * order.quantity + price * order.quantity * fee_rate) ∨
            (order.side = OrderSide.sell ∧
              ∀ pos, _find_position s order.portfolio_id order.symbol = some pos →
                pos.quantity < order.quantity)) :
    (_execute_order oid price s).portfolios = s.portfolios ∧
    (_execute_order oid price s).positions = s.positions ∧
    (_execute_order oid price s).trades = s.trades ∧
    findOrder (_execute_order oid price s) oid =
      some { order with status := OrderStatus.rejected } := by
  have hid : order.id = oid := by
    have h1 := List.find?_some ho
    simpa using h1
  have hmain : _execute_order oid price s =
      updateOrderData s oid (fun o => { o with status := OrderStatus.rejected }) := by
    rcases hrej with ⟨hside, hcash⟩ | ⟨hside, hpos⟩
    · exact exec_buy_reject ho hpf hside hcash
    · cases hfp : _find_position s order.portfolio_id order.symbol with
      | none => exact exec_sell_reject_nopos ho hpf hside hfp
      | some position =>
        exact exec_sell_reject_insufficient ho hpf hside hfp (hpos position hfp)
  rw [hmain]
  refine ⟨rfl, rfl, rfl, ?_⟩
  have hpx :
      (({ order with status := OrderStatus.rejected } : OrderData).id == oid) = true := by
    simp [hid]
  exact find?_updateFirst_self ho hpx

/-- Witness for C2: in `wRejectState` (cash 100, no positions) the
oversized buy and the positionless sell are both rejected atomically. -/
theorem C2_rejection_is_atomic_witness :
    ((_execute_order 1 1000 wRejectState).portfolios = wRejectState.portfolios ∧
      (_execute_order 1 1000 wRejectState).positions = wRejectState.positions ∧
      (_execute_order 1 1000 wRejectState).trades = wRejectState.trades ∧
      findOrder (_execute_order 1 1000 wRejectState) 1 =
        some { wBigBuy with status := OrderStatus.rejected }) ∧
    ((_execute_order 2 1000 wRejectState).portfolios = wRejectState.portfolios ∧
      (_execute_order 2 1000 wRejectState).positions = wRejectState.positions ∧
      (_execute_order 2 1000 wRejectState).trades = wRejectState.trades ∧
      findOrder (_execute_order 2 1000 wRejectState) 2 =
        some { wBareSell with status := OrderStatus.rejected }) := by
  constructor
  · apply C2_rejection_is_atomic wRejectState 1 1000 wBigBuy
      ⟨0, 100, 100, 0, 0⟩
      (by simp [findOrder, wRejectState, wBigBuy, wBareSell, List.find?_cons])
      (by simp [findPortfolio, wRejectState, wBigBuy, List.find?_cons])
    left
    refine ⟨rfl, ?_⟩
    norm_num [wBigBuy, fee_rate]
  · apply C2_rejection_is_atomic wRejectState 2 1000 wBareSell
      ⟨0, 100, 100, 0, 0⟩
      (by simp [findOrder, wRejectState, wBigBuy, wBareSell, List.find?_cons])
      (by simp [findPortfolio, wRejectState, wBareSell, List.find?_cons])
    right
    refine ⟨rfl, ?_⟩
    intro pos hpos
    simp [_find_position, wRejectState] at hpos

end PaperTrading

namespace PaperTrading

theorem winLossStep_eq (buys : List TradeData) (wl : Nat × Nat) (sell : TradeData) :
    winLossStep buys wl sell =
      match classifySell buys sell with
      | some true => (wl.1 + 1, wl.2)
      | some false => (wl.1, wl.2 + 1)
      | none => wl := by
  unfold winLossStep classifySell
  dsimp only
  by_cases h0 : (buys.filter (fun b =>
      b.symbol = sell.symbol ∧ b.executed_at < sell.executed_at)).length ≠ 0
  · rw [if_pos h0, if_pos h0]
    split
    · next hA => rw [decide_eq_true hA]
    · next hA => rw [decide_eq_false hA]
  · rw [if_neg h0, if_neg h0]

theorem winLoss_fold (buys : List TradeData) :
    ∀ (sells : List TradeData) (w l : Nat),
      sells.foldl (winLossStep buys) (w, l) =
        (w + sells.countP (fun sell => classifySell buys sell == some true),
         l + sells.countP (fun sell => classifySell buys sell == some false))
  | [], w, l => by simp
  | sell :: sells, w, l => by
    rw [List.foldl_cons, winLossStep_eq]
    cases hc : classifySell buys sell with
    | none =>
      dsimp only
      rw [winLoss_fold buys sells w l]
      simp [List.countP_cons, hc]
    | some b =>
      cases b with
      | true =>
        dsimp only
        rw [winLoss_fold buys sells (w + 1) l]
        simp only [List.countP_cons, hc]
        refine Prod.ext ?_ ?_ <;> (simp; try omega)
      | false =>
        dsimp only
        rw [winLoss_fold buys sells w (l + 1)]
        simp only [List.countP_cons, hc]
        refine Prod.ext ?_ ?_ <;> (simp; try omega)

/-- C9: the win/loss loop counts, for each SELL trade, the same-symbol
BUY trades with strictly earlier execution time; sells with no such buy
are excluded, a classified sell is a winner exactly when its price
strictly exceeds the average of those buy prices, and the win rate is
`winners / (winners + losers) × 100` (0 when nothing was classified). -/
theorem C9_win_loss_stats (trades : List TradeData) :
    winLoss trades = (specWinners trades, specLosers trades) ∧
    winRateOf trades =
      (if 0 < specWinners trades + specLosers trades
       then (specWinners trades : ℚ) /
          ((specWinners trades : ℚ) + (specLosers trades : ℚ)) * 100
       else 0) := by
  have h1 : winLoss trades = (specWinners trades, specLosers trades) := by
    unfold winLoss specWinners specLosers
    dsimp only
    rw [winLoss_fold]
    simp
  refine ⟨h1, ?_⟩
  unfold winRateOf
  rw [h1]

end PaperTrading

namespace PaperTrading

theorem findOrder_updateFirst_ne {l : List OrderData} {oid oid' : Nat}
    (hne : oid' ≠ oid) (f : OrderData → OrderData) (hf : ∀ x, (f x).id = x.id) :
    (updateFirst (fun o => o.id == oid) f l).find? (fun o => o.id == oid') =
      l.find? (fun o => o.id == oid') := by
  apply find?_updateFirst_of_none
  · intro x hx
    have h1 : x.id = oid := by simpa using hx
    have h2 : oid ≠ oid' := fun h => hne h.symm
    simp [h1, h2]
  · intro x hx
    have h1 : x.id = oid := by simpa using hx
    have h2 : oid ≠ oid' := fun h => hne h.symm
    simp [hf x, h1, h2]

theorem updatePortfolio_portfolios (s : ServiceState) (pid : Nat) (f) :
    (updatePortfolio s pid f).portfolios =
      updateFirst (fun x => x.id == pid) f s.portfolios := rfl

theorem exec_orders_eq (oid : Nat) (p : ℚ) (s : ServiceState) :
    (_execute_order oid p s).orders = s.orders ∨
    ∃ f : OrderData → OrderData, (∀ x, (f x).id = x.id) ∧
      (_execute_order oid p s).orders = updateFirst (fun o => o.id == oid) f s.orders := by
  cases ho : findOrder s oid with
  | none => rw [exec_of_order_none p ho]; exact Or.inl rfl
  | some order =>
  cases hpf : findPortfolio s order.portfolio_id with
  | none => rw [exec_of_portfolio_none p ho hpf]; exact Or.inl rfl
  | some portfolio =>
  cases hside : order.side with
  | buy =>
    by_cases hcash : portfolio.cash_balance <
        p * order.quantity + p * order.quantity * fee_rate
    · rw [exec_buy_reject ho hpf hside hcash]
      refine Or.inr ⟨_, ?_, rfl⟩
      exact fun x => rfl
    · rw [exec_buy_fill ho hpf hside hcash, finishFill_orders,
          update_position_orders, updatePortfolio_orders]
      refine Or.inr ⟨_, ?_, rfl⟩
      exact fun x => rfl
  | sell =>
    cases hpos : _find_position s order.portfolio_id order.symbol with
    | none =>
      rw [exec_sell_reject_nopos ho hpf hside hpos]
      refine Or.inr ⟨_, ?_, rfl⟩
      exact fun x => rfl
    | some position =>
      by_cases hlt : position.quantity < order.quantity
      · rw [exec_sell_reject_insufficient ho hpf hside hpos hlt]
        refine Or.inr ⟨_, ?_, rfl⟩
        exact fun x => rfl
      · rw [exec_sell_fill ho hpf hside hpos hlt, finishFill_orders,
            reduce_position_orders, updatePortfolio_orders]
        refine Or.inr ⟨_, ?_, rfl⟩
        exact fun x => rfl

theorem exec_findOrder_other {oid oid' : Nat} (p : ℚ) {s : ServiceState}
    (hne : oid' ≠ oid) :
    findOrder (_execute_order oid p s) oid' = findOrder s oid' := by
  rcases exec_orders_eq oid p s with h | ⟨f, hfid, h⟩
  · unfold findOrder
    rw [h]
  · unfold findOrder
    rw [h]
    exact findOrder_updateFirst_ne hne f hfid

theorem finishFill_findOrder {oid : Nat} {p fee : ℚ} {o : OrderData}
    {t : ServiceState} {x : OrderData}
    (hx : t.orders.find? (fun z => z.id == oid) = some x) (hid : x.id = oid) :
    findOrder (finishFill oid p fee o t) oid =
      some { x with status := OrderStatus.filled, filled_quantity := x.quantity,
                    average_fill_price := some p, filled_at := some t.clock } := by
  show (finishFill oid p fee o t).orders.find? (fun z => z.id == oid) = _
  rw [finishFill_orders]
  exact find?_updateFirst_self hx (by simp [hid])

theorem exec_findOrder_self {oid : Nat} (p : ℚ) {s : ServiceState} {o : OrderData}
    (ho : findOrder s oid = some o)
    (hpf : (findPortfolio s o.portfolio_id).isSome) :
    ∃ o', findOrder (_execute_order oid p s) oid = some o' ∧
      (o'.status = OrderStatus.rejected ∨ o'.status = OrderStatus.filled) := by
  have hid : o.id = oid := by
    have h1 := List.find?_some ho
    simpa using h1
  rcases Option.isSome_iff_exists.1 hpf with ⟨pf, hpf'⟩
  cases hside : o.side with
  | buy =>
    by_cases hcash : pf.cash_balance < p * o.quantity + p * o.quantity * fee_rate
    · rw [exec_buy_reject ho hpf' hside hcash]
      exact ⟨{ o with status := OrderStatus.rejected },
        find?_updateFirst_self ho (by simp [hid]), Or.inl rfl⟩
    · rw [exec_buy_fill ho hpf' hside hcash]
      refine ⟨_, finishFill_findOrder ?_ hid, Or.inr rfl⟩
      rw [update_position_orders, updatePortfolio_orders]
      exact ho
  | sell =>
    cases hpos : _find_position s o.portfolio_id o.symbol with
    | none =>
      rw [exec_sell_reject_nopos ho hpf' hside hpos]
      exact ⟨{ o with status := OrderStatus.rejected },
        find?_updateFirst_self ho (by simp [hid]), Or.inl rfl⟩
    | some position =>
      by_cases hlt : position.quantity < o.quantity
      · rw [exec_sell_reject_insufficient ho hpf' hside hpos hlt]
        exact ⟨{ o with status := OrderStatus.rejected },
          find?_updateFirst_self ho (by simp [hid]), Or.inl rfl⟩
      · rw [exec_sell_fill ho hpf' hside hpos hlt]
        refine ⟨_, finishFill_findOrder ?_ hid, Or.inr rfl⟩
        rw [reduce_position_orders, updatePortfolio_orders]
        exact ho

theorem exec_portfolios_map_id (oid : Nat) (p : ℚ) (s : ServiceState) :
    ((_execute_order oid p s).portfolios).map (fun x => x.id) =
      s.portfolios.map (fun x => x.id) := by
  cases ho : findOrder s oid with
  | none => rw [exec_of_order_none p ho]
  | some order =>
  cases hpf : findPortfolio s order.portfolio_id with
  | none => rw [exec_of_portfolio_none p ho hpf]
  | some portfolio =>
  cases hside : order.side with
  | buy =>
    by_cases hcash : portfolio.cash_balance <
        p * order.quantity + p * order.quantity * fee_rate
    · rw [exec_buy_reject ho hpf hside hcash]; rfl
    · rw [exec_buy_fill ho hpf hside hcash, finishFill_portfolios]
      refine (map_updateFirst_key ?_).trans ?_
      · exact fun x => rfl
      · rw [update_position_portfolios, updatePortfolio_portfolios]
        refine (map_updateFirst_key ?_).trans ?_
        · exact fun x => rfl
        · rfl
  | sell =>
    cases hpos : _find_position s order.portfolio_id order.symbol with
    | none => rw [exec_sell_reject_nopos ho hpf hside hpos]; rfl
    | some position =>
      by_cases hlt : position.quantity < order.quantity
      · rw [exec_sell_reject_insufficient ho hpf hside hpos hlt]; rfl
      · rw [exec_sell_fill ho hpf hside hpos hlt, finishFill_portfolios]
        refine (map_updateFirst_key ?_).trans ?_
        · exact fun x => rfl
        · rw [reduce_position_portfolios, updatePortfolio_portfolios]
          refine (map_updateFirst_key ?_).trans ?_
          · exact fun x => rfl
          · rfl

theorem isSome_findPortfolio_of_map_id {s s' : ServiceState}
    (h : s'.portfolios.map (fun x => x.id) = s.portfolios.map (fun x => x.id))
    (pid : Nat) :
    (findPortfolio s' pid).isSome = (findPortfolio s pid).isSome := by
  have key : ∀ (t : ServiceState),
      (findPortfolio t pid).isSome = true ↔ pid ∈ t.portfolios.map (fun x => x.id) := by
    intro t
    unfold findPortfolio
    rw [List.find?_isSome]
    constructor
    · rintro ⟨x, hx, hbeq⟩
      have hxe : x.id = pid := by simpa using hbeq
      exact hxe ▸ List.mem_map_of_mem _ hx
    · intro hmem
      rcases List.mem_map.1 hmem with ⟨x, hx, hxe⟩
      exact ⟨x, hx, by simp [hxe]⟩
  by_cases hs : (findPortfolio s pid).isSome = true
  · rw [hs]
    rw [key s'] 
    rw [h]
    exact (key s).1 hs
  · have hs' : (findPortfolio s pid).isSome = false := by
      revert hs
      cases (findPortfolio s pid).isSome <;> simp
    rw [hs']
    have : ¬ (findPortfolio s' pid).isSome = true := by
      rw [key s', h]
      exact fun hc => hs ((key s).2 hc)
    revert this
    cases (findPortfolio s' pid).isSome <;> simp

theorem exec_findPortfolio_isSome {oid : Nat} (p : ℚ) {s : ServiceState} {pid : Nat}
    (h : (findPortfolio s pid).isSome) :
    (findPortfolio (_execute_order oid p s) pid).isSome := by
  rw [isSome_findPortfolio_of_map_id (exec_portfolios_map_id oid p s) pid]
  exact h

end PaperTrading

namespace PaperTrading

theorem sweepTriggers_spec {prices : List (String × ℚ)} {o : OrderData}
    (h : sweepTriggers prices o = true) :
    o.status = OrderStatus.pending ∧
      ∃ cp, lookupPrice prices o.symbol = some cp ∧ (triggerCheck o cp).1 = true := by
  unfold sweepTriggers at h
  rw [Bool.and_eq_true] at h
  rcases h with ⟨h1, h2⟩
  have hpend : o.status = OrderStatus.pending := by simpa using h1
  cases hlp : lookupPrice prices o.symbol with
  | none => rw [hlp] at h2; cases h2
  | some cp =>
    rw [hlp] at h2
    exact ⟨hpend, cp, rfl, h2⟩

theorem sweepStep_skip {prices : List (String × ℚ)} {o : OrderData}
    (acc : ServiceState × List OrderData) (h : sweepTriggers prices o = false) :
    sweepStep prices acc o = acc := by
  unfold sweepStep
  by_cases hst : o.status ≠ OrderStatus.pending
  · rw [if_pos hst]
  · rw [if_neg hst]
    have hpend : o.status = OrderStatus.pending := not_not.1 (by simpa using hst)
    cases hlp : lookupPrice prices o.symbol with
    | none => rfl
    | some cp =>
      dsimp only
      have htc : (triggerCheck o cp).1 = false := by
        unfold sweepTriggers at h
        rw [hlp] at h
        simpa [hpend] using h
      rw [if_neg (by simp [htc])]

theorem sweepStep_fires {prices : List (String × ℚ)} {o : OrderData} {cp : ℚ}
    (acc : ServiceState × List OrderData)
    (hpend : o.status = OrderStatus.pending)
    (hlp : lookupPrice prices o.symbol = some cp)
    (htc : (triggerCheck o cp).1 = true) :
    sweepStep prices acc o =
      (match findOrder (_execute_order o.id (triggerCheck o cp).2 acc.1) o.id with
       | some e => (_execute_order o.id (triggerCheck o cp).2 acc.1, acc.2 ++ [e])
       | none => (_execute_order o.id (triggerCheck o cp).2 acc.1, acc.2)) := by
  unfold sweepStep
  rw [if_neg (by simp [hpend]), hlp]
  dsimp only
  rw [if_pos htc]

theorem sweep_fold_untouched {prices : List (String × ℚ)} :
    ∀ (rest : List OrderData) (acc : ServiceState × List OrderData) (oid : Nat),
      (∀ o ∈ rest, findOrder acc.1 o.id = some o) →
      ((rest.map (fun o => o.id)).Nodup) →
      (∀ o ∈ rest, o.id = oid → sweepTriggers prices o = false) →
      findOrder ((rest.foldl (sweepStep prices) acc).1) oid = findOrder acc.1 oid
  | [], acc, oid, _, _, _ => rfl
  | o :: rest, acc, oid, hfound, hnd, hno => by
    rw [List.foldl_cons]
    simp only [List.map_cons, List.nodup_cons] at hnd
    by_cases htr : sweepTriggers prices o = true
    · obtain ⟨hpend, cp, hlp, htc⟩ := sweepTriggers_spec htr
      have hns : oid ≠ o.id := by
        intro he
        have hfz := hno o (List.mem_cons_self _ _) he.symm
        rw [hfz] at htr
        cases htr
      have hf2 : ∀ o2 ∈ rest,
          findOrder (_execute_order o.id (triggerCheck o cp).2 acc.1) o2.id = some o2 := by
        intro o2 h2
        have hne2 : o2.id ≠ o.id := fun he => hnd.1 (he ▸ List.mem_map_of_mem _ h2)
        rw [exec_findOrder_other _ hne2]
        exact hfound o2 (List.mem_cons_of_mem _ h2)
      have hkey : ∀ (ex2 : List OrderData),
          findOrder ((rest.foldl (sweepStep prices)
            (_execute_order o.id (triggerCheck o cp).2 acc.1, ex2)).1) oid =
            findOrder acc.1 oid := by
        intro ex2
        rw [sweep_fold_untouched rest (_execute_order o.id (triggerCheck o cp).2 acc.1, ex2)
          oid hf2 hnd.2 (fun o2 h2 he => hno o2 (List.mem_cons_of_mem _ h2) he)]
        exact exec_findOrder_other _ hns
      rw [sweepStep_fires acc hpend hlp htc]
      cases hfo : findOrder (_execute_order o.id (triggerCheck o cp).2 acc.1) o.id with
      | some e => exact hkey (acc.2 ++ [e])
      | none => exact hkey acc.2
    · have hfalse : sweepTriggers prices o = false := by
        revert htr
        cases sweepTriggers prices o <;> simp
      rw [sweepStep_skip acc hfalse]
      exact sweep_fold_untouched rest acc oid
        (fun o2 h2 => hfound o2 (List.mem_cons_of_mem _ h2)) hnd.2
        (fun o2 h2 he => hno o2 (List.mem_cons_of_mem _ h2) he)

theorem sweep_fold_executed {prices : List (String × ℚ)} :
    ∀ (rest : List OrderData) (acc : ServiceState × List OrderData),
      (∀ o ∈ rest, findOrder acc.1 o.id = some o) →
      ((rest.map (fun o => o.id)).Nodup) →
      (∀ o ∈ rest, o.status = OrderStatus.pending →
        (findPortfolio acc.1 o.portfolio_id).isSome) →
      (rest.foldl (sweepStep prices) acc).2 =
        acc.2 ++ statusChangedOrders rest ((rest.foldl (sweepStep prices) acc).1)
  | [], acc, _, _, _ => by simp [statusChangedOrders]
  | o :: rest, acc, hfound, hnd, hpf => by
    rw [List.foldl_cons]
    simp only [List.map_cons, List.nodup_cons] at hnd
    have ho : findOrder acc.1 o.id = some o := hfound o (List.mem_cons_self _ _)
    by_cases htr : sweepTriggers prices o = true
    · obtain ⟨hpend, cp, hlp, htc⟩ := sweepTriggers_spec htr
      obtain ⟨o', hfo', hstat⟩ := exec_findOrder_self (triggerCheck o cp).2 ho
        (hpf o (List.mem_cons_self _ _) hpend)
      have hf2 : ∀ o2 ∈ rest,
          findOrder (_execute_order o.id (triggerCheck o cp).2 acc.1) o2.id = some o2 := by
        intro o2 h2
        have hne2 : o2.id ≠ o.id := fun he => hnd.1 (he ▸ List.mem_map_of_mem _ h2)
        rw [exec_findOrder_other _ hne2]
        exact hfound o2 (List.mem_cons_of_mem _ h2)
      have hpf2 : ∀ o2 ∈ rest, o2.status = OrderStatus.pending →
          (findPortfolio (_execute_order o.id (triggerCheck o cp).2 acc.1) o2.portfolio_id).isSome :=
        fun o2 h2 hp2 => exec_findPortfolio_isSome _ (hpf o2 (List.mem_cons_of_mem _ h2) hp2)
      rw [sweepStep_fires acc hpend hlp htc]
      simp only [hfo']
      rw [sweep_fold_executed rest (_execute_order o.id (triggerCheck o cp).2 acc.1, acc.2 ++ [o'])
        hf2 hnd.2 hpf2]
      have hofin : findOrder ((rest.foldl (sweepStep prices)
          (_execute_order o.id (triggerCheck o cp).2 acc.1, acc.2 ++ [o'])).1) o.id = some o' := by
        rw [sweep_fold_untouched rest
          (_execute_order o.id (triggerCheck o cp).2 acc.1, acc.2 ++ [o']) o.id hf2 hnd.2
          (fun o2 h2 he => absurd (he ▸ List.mem_map_of_mem _ h2) hnd.1)]
        exact hfo'
      unfold statusChangedOrders
      simp only [List.filterMap_cons, hofin]
      rw [if_pos (show o'.status ≠ o.status from by
        rw [hpend]
        rcases hstat with h | h <;> simp [h])]
      simp
    · have hfalse : sweepTriggers prices o = false := by
        revert htr
        cases sweepTriggers prices o <;> simp
      rw [sweepStep_skip acc hfalse]
      have hfr : ∀ o2 ∈ rest, findOrder acc.1 o2.id = some o2 :=
        fun o2 h2 => hfound o2 (List.mem_cons_of_mem _ h2)
      rw [sweep_fold_executed rest acc hfr hnd.2
        (fun o2 h2 hp2 => hpf o2 (List.mem_cons_of_mem _ h2) hp2)]
      have hofin : findOrder ((rest.foldl (sweepStep prices) acc).1) o.id = some o := by
        rw [sweep_fold_untouched rest acc o.id hfr hnd.2
          (fun o2 h2 he => absurd (he ▸ List.mem_map_of_mem _ h2) hnd.1)]
        exact ho
      unfold statusChangedOrders
      simp only [List.filterMap_cons, hofin]
      rw [if_neg (by simp)]

end PaperTrading

namespace PaperTrading

/-- C8: during a sweep, every PENDING order whose symbol is absent from
the snapshot is left untouched (it remains PENDING, neither cancelled
nor rejected), and the sweep returns exactly the scanned orders whose
status changed during that call, in their post-sweep versions, in scan
order.  The hypotheses state what Python's dict storage guarantees:
order ids are unique, and every pending order's portfolio exists. -/
theorem C8_sweep_skip_and_return (s : ServiceState) (prices : List (String × ℚ))
    (hnd : (s.orders.map (fun o => o.id)).Nodup)
    (hpf : ∀ o ∈ s.orders, o.status = OrderStatus.pending →
      (findPortfolio s o.portfolio_id).isSome) :
    (∀ o ∈ s.orders, o.status = OrderStatus.pending →
      lookupPrice prices o.symbol = none →
      findOrder (update_market_prices prices s).1 o.id = some o) ∧
    (update_market_prices prices s).2 =
      statusChangedOrders s.orders (update_market_prices prices s).1 := by
  have hfound : ∀ o ∈ s.orders, findOrder s o.id = some o :=
    fun o ho => find?_key_of_nodup hnd ho
  constructor
  · intro o ho hpend hlp
    have hno : ∀ o2 ∈ s.orders, o2.id = o.id → sweepTriggers prices o2 = false := by
      intro o2 h2 he
      have heq : o2 = o := by
        have e1 := hfound o2 h2
        rw [he, hfound o ho] at e1
        exact (Option.some.inj e1).symm
      subst heq
      unfold sweepTriggers
      rw [hlp]
      simp
    unfold update_market_prices
    rw [sweep_fold_untouched s.orders (s, []) o.id hfound hnd hno]
    exact hfound o ho
  · unfold update_market_prices
    rw [sweep_fold_executed s.orders (s, []) hfound hnd hpf]
    simp

/-- Witness for C8 at a snapshot that prices no stored symbol: the
pending order is untouched and the returned list is the (empty) list of
status changes. -/
theorem C8_sweep_skip_and_return_witness :
    findOrder (update_market_prices [("ETH/USD", 5)] wCancelState).1 wPending.id =
      some wPending ∧
    (update_market_prices [("ETH/USD", 5)] wCancelState).2 =
      statusChangedOrders wCancelState.orders
        (update_market_prices [("ETH/USD", 5)] wCancelState).1 := by
  have h := C8_sweep_skip_and_return wCancelState [("ETH/USD", 5)]
    (by simp [wCancelState, wPending, wFilled])
    (by
      intro o ho hp
      simp only [wCancelState, List.mem_cons, List.not_mem_nil, or_false] at ho
      rcases ho with rfl | rfl <;>
        simp [findPortfolio, wCancelState, wPending, wFilled, List.find?_cons])
  refine ⟨?_, h.2⟩
  exact h.1 wPending (by simp [wCancelState]) rfl
    (by simp [lookupPrice, wPending, List.find?_cons])

theorem triggerCheck_limit_no_price {o : OrderData} {cp : ℚ}
    (hty : o.order_type = OrderType.limit) (hp : o.price = none) :
    (triggerCheck o cp).1 = false := by
  unfold triggerCheck
  rw [if_neg (by rintro ⟨-, h2⟩; rw [hp] at h2; simp [otruthy] at h2)]
  rw [if_neg (by rintro ⟨h1, -⟩; rw [hty] at h1; cases h1)]
  rw [if_neg (by rintro ⟨h1, -⟩; rw [hty] at h1; cases h1)]

/-- C10: a limit order created without a limit price is stored PENDING
with no error (whatever the current price is — it is never executed at
creation), and no sweep ever executes it: it stays exactly as stored,
PENDING, until cancelled. -/
theorem C10_limit_without_price :
    (∀ (s : ServiceState) (pid : Nat) (req : CreateOrderRequest) (cp : ℚ),
      (findPortfolio s pid).isNone = false →
      req.order_type = OrderType.limit → req.price = none →
      create_order pid req cp s =
        ({ s with
            orders := s.orders ++ [newOrderRecord pid req s],
            nextId := s.nextId + 1, clock := s.clock + 1 },
         Except.ok s.nextId)) ∧
    (∀ (s : ServiceState) (prices : List (String × ℚ)) (o : OrderData),
      ((s.orders.map (fun x => x.id)).Nodup) → o ∈ s.orders →
      o.order_type = OrderType.limit → o.price = none →
      findOrder (update_market_prices prices s).1 o.id = some o) := by
  constructor
  · intro s pid req cp hpf hty hp
    unfold create_order
    rw [if_neg (by simp [hpf])]
    dsimp only
    rw [if_neg (by simp [hty])]
    rw [if_neg (by rintro ⟨-, h2⟩; rw [hp] at h2; simp [otruthy] at h2)]
    rfl
  · intro s prices o hnd ho hty hp
    have hfound : ∀ o2 ∈ s.orders, findOrder s o2.id = some o2 :=
      fun o2 h2 => find?_key_of_nodup hnd h2
    have htrig : sweepTriggers prices o = false := by
      unfold sweepTriggers
      cases hlp : lookupPrice prices o.symbol with
      | none => simp
      | some cp => simp [triggerCheck_limit_no_price hty hp]
    have hno : ∀ o2 ∈ s.orders, o2.id = o.id → sweepTriggers prices o2 = false := by
      intro o2 h2 he
      have heq : o2 = o := by
        have e1 := hfound o2 h2
        rw [he, hfound o ho] at e1
        exact (Option.some.inj e1).symm
      subst heq
      exact htrig
    unfold update_market_prices
    rw [sweep_fold_untouched s.orders (s, []) o.id hfound hnd hno]
    exact hfound o ho

/-- Witness for C10: creating a priceless limit order against
`wCancelState` stores it pending, and a sweep at any of two snapshots
leaves `wNoPrice` untouched in `wNoPriceState`. -/
theorem C10_limit_without_price_witness :
    (create_order 0 ⟨"BTC/USD", OrderSide.buy, OrderType.limit, 1, none, none⟩
        31415 wCancelState =
      ({ wCancelState with
          orders := wCancelState.orders ++
            [newOrderRecord 0 ⟨"BTC/USD", OrderSide.buy, OrderType.limit, 1, none, none⟩ wCancelState],
          nextId := wCancelState.nextId + 1, clock := wCancelState.clock + 1 },
       Except.ok wCancelState.nextId)) ∧
    findOrder (update_market_prices [("BTC/USD", 1)] wNoPriceState).1 wNoPrice.id =
      some wNoPrice := by
  constructor
  · exact C10_limit_without_price.1 wCancelState 0
      ⟨"BTC/USD", OrderSide.buy, OrderType.limit, 1, none, none⟩ 31415
      (by simp [findPortfolio, wCancelState, List.find?_cons]) rfl rfl
  · exact C10_limit_without_price.2 wNoPriceState [("BTC/USD", 1)] wNoPrice
      (by simp [wNoPriceState, wNoPrice]) (by simp [wNoPriceState]) rfl rfl

end PaperTrading

namespace PaperTrading

/-- C4: trigger semantics.  A limit buy created while the current price
exceeds its limit is stored PENDING with no other state change; in a
sweep, a pending limit order triggers iff snapshot price ≤ limit (buy)
resp. ≥ limit (sell), executing at the limit price, while a stop-loss
triggers iff snapshot price ≤ its stop price and a take-profit iff
snapshot price ≥ its stop price, both executing at the snapshot price.
`triggerCheck` is the sweep's decision: `update_market_prices` calls
`_execute_order` at `(triggerCheck o cp).2` exactly when
`(triggerCheck o cp).1` holds. -/
theorem C4_trigger_semantics :
    (∀ (s : ServiceState) (pid : Nat) (req : CreateOrderRequest) (cp p : ℚ),
      (findPortfolio s pid).isNone = false →
      req.order_type = OrderType.limit → req.side = OrderSide.buy →
      req.price = some p → p < cp →
      create_order pid req cp s =
        ({ s with
            orders := s.orders ++ [newOrderRecord pid req s],
            nextId := s.nextId + 1, clock := s.clock + 1 },
         Except.ok s.nextId)) ∧
    (∀ (o : OrderData) (cp p : ℚ),
      o.order_type = OrderType.limit → o.price = some p → p ≠ 0 →
      triggerCheck o cp =
        (if (o.side = OrderSide.buy ∧ cp ≤ p) ∨ (o.side = OrderSide.sell ∧ p ≤ cp)
         then (true, p) else (false, cp))) ∧
    (∀ (o : OrderData) (cp sp : ℚ),
      o.order_type = OrderType.stop_loss → o.stop_price = some sp → sp ≠ 0 →
      triggerCheck o cp = (if cp ≤ sp then (true, cp) else (false, cp))) ∧
    (∀ (o : OrderData) (cp sp : ℚ),
      o.order_type = OrderType.take_profit → o.stop_price = some sp → sp ≠ 0 →
      triggerCheck o cp = (if sp ≤ cp then (true, cp) else (false, cp))) := by
  refine ⟨?_, ?_, ?_, ?_⟩
  · intro s pid req cp p hpf hty hside hp hlt
    unfold create_order
    rw [if_neg (by simp [hpf])]
    dsimp only
    rw [if_neg (by simp [hty])]
    by_cases htr : req.order_type = OrderType.limit ∧ otruthy req.price = true
    · rw [if_pos htr, hp]
      dsimp only
      have hd : ¬ ((req.side = OrderSide.buy ∧ cp ≤ p) ∨
          (req.side = OrderSide.sell ∧ p ≤ cp)) := by
        rintro (⟨-, hle⟩ | ⟨hs, -⟩)
        · exact absurd hlt (not_lt.2 hle)
        · rw [hside] at hs
          cases hs
      rw [if_neg hd]
      simp only [newOrderRecord, hp]
    · rw [if_neg htr]
      rfl
  · intro o cp p hty hp hne
    unfold triggerCheck
    rw [if_pos ⟨hty, by rw [hp]; simp [otruthy, hne]⟩, hp]
  · intro o cp sp hty hsp hne
    unfold triggerCheck
    rw [if_neg (by rintro ⟨h1, -⟩; rw [hty] at h1; cases h1)]
    rw [if_pos ⟨hty, by rw [hsp]; simp [otruthy, hne]⟩, hsp]
  · intro o cp sp hty hsp hne
    unfold triggerCheck
    rw [if_neg (by rintro ⟨h1, -⟩; rw [hty] at h1; cases h1)]
    rw [if_neg (by rintro ⟨h1, -⟩; rw [hty] at h1; cases h1)]
    rw [if_pos ⟨hty, by rw [hsp]; simp [otruthy, hne]⟩, hsp]

/-- Witness for C4: a limit buy at 30000 created while the price is
35000 stays pending; the stored limit buy at 10 triggers at snapshot 9
(at price 10) and not at 11; a stop-loss at 50 triggers at 40 at the
snapshot price; a take-profit at 50 triggers at 60 at the snapshot
price. -/
theorem C4_trigger_semantics_witness :
    (create_order 0 ⟨"BTC/USD", OrderSide.buy, OrderType.limit, 1, some 30000, none⟩
        35000 wCancelState =
      ({ wCancelState with
          orders := wCancelState.orders ++
            [newOrderRecord 0
              ⟨"BTC/USD", OrderSide.buy, OrderType.limit, 1, some 30000, none⟩
              wCancelState],
          nextId := wCancelState.nextId + 1,
          clock := wCancelState.clock + 1 },
       Except.ok wCancelState.nextId)) ∧
    triggerCheck wPending 9 = (true, 10) ∧
    triggerCheck wPending 11 = (false, 11) ∧
    triggerCheck ⟨3, 0, "BTC/USD", OrderSide.sell, OrderType.stop_loss, 1, 0,
      none, some 50, none, OrderStatus.pending, 0, none, none⟩ 40 = (true, 40) ∧
    triggerCheck ⟨3, 0, "BTC/USD", OrderSide.sell, OrderType.take_profit, 1, 0,
      none, some 50, none, OrderStatus.pending, 0, none, none⟩ 60 = (true, 60) := by
  refine ⟨?_, ?_, ?_, ?_, ?_⟩
  · exact C4_trigger_semantics.1 wCancelState 0
      ⟨"BTC/USD", OrderSide.buy, OrderType.limit, 1, some 30000, none⟩ 35000 30000
      (by simp [findPortfolio, wCancelState, List.find?_cons]) rfl rfl rfl (by norm_num)
  · rw [C4_trigger_semantics.2.1 wPending 9 10 rfl rfl (by norm_num)]
    rw [if_pos (Or.inl ⟨rfl, by norm_num⟩)]
  · rw [C4_trigger_semantics.2.1 wPending 11 10 rfl rfl (by norm_num)]
    rw [if_neg ?hn]
    case hn =>
      rintro (⟨-, hle⟩ | ⟨hs, -⟩)
      · norm_num at hle
      · simp [wPending] at hs
  · rw [C4_trigger_semantics.2.2.1 ⟨3, 0, "BTC/USD", OrderSide.sell,
      OrderType.stop_loss, 1, 0, none, some 50, none, OrderStatus.pending, 0,
      none, none⟩ 40 50 rfl rfl (by norm_num)]
    rw [if_pos (by norm_num)]
  · rw [C4_trigger_semantics.2.2.2 ⟨3, 0, "BTC/USD", OrderSide.sell,
      OrderType.take_profit, 1, 0, none, some 50, none, OrderStatus.pending, 0,
      none, none⟩ 60 50 rfl rfl (by norm_num)]
    rw [if_pos (by norm_num)]

end PaperTrading
